import Mathlib

/-!
Shallow embedding of the tick-driven CPU scheduling engine of `src/app.py`
(the `Process` class, the `tm_page` Start / Add Task / Kill button handlers
and the nested `scheduler_tick` function).

Python objects are modelled by a store `processes : List Process` addressed
by the numeric `id` field (the app uses uuid4 strings, unique per process);
the ready queue, the arrival feed (`un_arrived_processes`) and
`completed_processes` hold ids.  Python ints are `Int`; `None` is `Option`.
Python's stable `sorted`/`list.sort` on tuple keys is modelled by a stable
insertion sort on a strict lexicographic order.
-/

namespace DAMPos

inductive PState where
  | Waiting
  | Running
  | Finished
deriving DecidableEq, Repr

inductive Algorithm where
  | FCFS
  | SJF
  | Priority
  | RoundRobin
deriving DecidableEq, Repr

/-- The `Process` class of `src/app.py` (static inputs plus dynamic state). -/
structure Process where
  id : Nat
  name : String
  arrival_time : Int
  burst_time : Int
  priority : Int
  addition_order : Int
  remaining_time : Int
  state : PState
  start_execution_time : Option Int
  last_run_time : Option Int
  completion_time : Option Int
deriving DecidableEq, Repr

/-- A fresh process as built by `Process.__init__`. -/
def mkProcess (id : Nat) (name : String) (arrival burst priority order : Int) : Process :=
  { id := id
    name := name
    arrival_time := arrival
    burst_time := burst
    priority := priority
    addition_order := order
    remaining_time := burst
    state := PState.Waiting
    start_execution_time := none
    last_run_time := none
    completion_time := none }

/-- The scheduler-related slice of `st.session_state` in `tm_page`. -/
structure SimState where
  processes : List Process
  running : Bool
  current_process_id : Option Nat
  algorithm : Algorithm
  time_quantum : Int
  rr_quantum_counter : Int
  gantt_raw_log : List (String × Int × Int)
  sim_time : Int
  cpu_active_time : Int
  ready_queue : List Nat
  un_arrived_processes : List Nat
  completed_processes : List Nat
  prev_executed_pid : Option Nat
deriving DecidableEq, Repr

/-- `next((p for p in processes if p.id == pid), None)`. -/
def getP (procs : List Process) (pid : Nat) : Option Process :=
  procs.find? (fun p => p.id == pid)

/-- In-place mutation of the one process object with id `pid`. -/
def updateP (procs : List Process) (pid : Nat) (f : Process → Process) : List Process :=
  procs.map (fun p => if p.id = pid then f p else p)

/-- Stable insertion placing `a` after every element strictly below it
(`lt b a` = `b` strictly precedes `a`), hence before earlier-inserted
equal keys: combined with `sortB` this reproduces Python's stable sort. -/
def insertB (lt : α → α → Bool) (a : α) : List α → List α
  | [] => [a]
  | b :: bs => if lt b a then b :: insertB lt a bs else a :: b :: bs

/-- Stable sort by the strict order `lt` (Python `sorted` / `list.sort`). -/
def sortB (lt : α → α → Bool) : List α → List α
  | [] => []
  | x :: xs => insertB lt x (sortB lt xs)

/-- Strict lexicographic order on pairs of ints (Python tuple `<`). -/
def lex2 (a b : Int × Int) : Bool :=
  a.1 < b.1 || (a.1 = b.1 && a.2 < b.2)

/-- Strict lexicographic order on triples of ints. -/
def lex3 (a b : Int × Int × Int) : Bool :=
  a.1 < b.1 || (a.1 = b.1 && lex2 a.2 b.2)

/-- Sort key `(arrival_time, addition_order)` (FCFS and the arrival feed). -/
def keyArrival (p : Process) : Int × Int :=
  (p.arrival_time, p.addition_order)

/-- Sort key `(burst_time, arrival_time, addition_order)` (SJF). -/
def keySJF (p : Process) : Int × Int × Int :=
  (p.burst_time, p.arrival_time, p.addition_order)

/-- Sort key `(priority, arrival_time, addition_order)` (Priority). -/
def keyPriority (p : Process) : Int × Int × Int :=
  (p.priority, p.arrival_time, p.addition_order)

/-- Key of a queue entry, looked up in the store (entries of the queues are
always present in the store, see the invariants below). -/
def keyArrivalId (procs : List Process) (pid : Nat) : Int × Int :=
  match getP procs pid with
  | some p => keyArrival p
  | none => (0, 0)

/-- Step 1 of `scheduler_tick`: pop the arrival feed while the front has
`arrival_time <= sim_time`, appending non-Finished processes to the ready
queue.  Returns the new ready queue and the remaining feed. -/
def releaseArrivals (procs : List Process) (t : Int) :
    List Nat → List Nat → List Nat × List Nat
  | ready, [] => (ready, [])
  | ready, pid :: rest =>
    match getP procs pid with
    | some p =>
      if p.arrival_time ≤ t then
        releaseArrivals procs t
          (if p.state ≠ PState.Finished then ready ++ [pid] else ready) rest
      else (ready, pid :: rest)
    | none => (ready, pid :: rest)

/-- Step 2 of `scheduler_tick`: per-algorithm selection.  Returns the
(possibly re-sorted, for FCFS) ready queue and `next_process_to_run`'s id. -/
def selectNext (s : SimState) (current : Option Process) : List Nat × Option Nat :=
  match s.algorithm with
  | Algorithm.FCFS =>
    let ready2 := sortB (fun a b => lex2 (keyArrivalId s.processes a) (keyArrivalId s.processes b))
      s.ready_queue
    let next0 := ready2.head?
    let next :=
      match current with
      | some c => if c.state = PState.Running ∧ 0 < c.remaining_time then some c.id else next0
      | none => next0
    (ready2, next)
  | Algorithm.SJF =>
    let avail := sortB (fun a b => lex3 (keySJF a) (keySJF b))
      ((s.ready_queue.filterMap (getP s.processes)).filter (fun p => p.state = PState.Waiting))
    let next0 := avail.head?.map Process.id
    let next :=
      match current with
      | some c => if c.state = PState.Running ∧ 0 < c.remaining_time then some c.id else next0
      | none => next0
    (s.ready_queue, next)
  | Algorithm.Priority =>
    let avail := sortB (fun a b => lex3 (keyPriority a) (keyPriority b))
      ((s.ready_queue.filterMap (getP s.processes)).filter (fun p => p.state = PState.Waiting))
    let next0 := avail.head?.map Process.id
    let next :=
      match current with
      | some c => if c.state = PState.Running ∧ 0 < c.remaining_time then some c.id else next0
      | none => next0
    (s.ready_queue, next)
  | Algorithm.RoundRobin =>
    let next :=
      match current with
      | some c =>
        if c.state = PState.Running ∧ 0 < c.remaining_time then some c.id
        else s.ready_queue.head?
      | none => s.ready_queue.head?
    (s.ready_queue, next)

/-- Step 4 per-tick mutation of the running process (lines 862–864):
`remaining_time -= 1; last_run_time := sim_time`. -/
def decRun (t : Int) (x : Process) : Process :=
  { x with remaining_time := x.remaining_time - 1, last_run_time := some t }

/-- Step 5 completion mutation (lines 879–880): `state := Finished;
completion_time := sim_time + 1`. -/
def finishP (t : Int) (x : Process) : Process :=
  { x with state := PState.Finished, completion_time := some (t + 1) }

/-- Round-Robin quantum-expiry mutation (line 892): `state := Waiting`. -/
def toWaiting (x : Process) : Process :=
  { x with state := PState.Waiting }

/-- Dispatch mutation (lines 827–829): `state := Running` and
`start_execution_time := sim_time` on first dispatch only. -/
def toRunning (t : Int) (x : Process) : Process :=
  { x with
    state := PState.Running
    start_execution_time :=
      match x.start_execution_time with
      | none => some t
      | some t0 => some t0 }

/-- Kill mutation (lines 725–727): `state := Finished; remaining_time := 0;
completion_time := sim_time`. -/
def killP (t : Int) (x : Process) : Process :=
  { x with state := PState.Finished, remaining_time := 0, completion_time := some t }

/-- Start-button per-process reset (lines 680–685). -/
def resetP (x : Process) : Process :=
  { x with
    remaining_time := x.burst_time
    state := PState.Waiting
    start_execution_time := none
    last_run_time := none
    completion_time := none }

/-- The Gantt-log update of step 4 (lines 866–874 of `src/app.py`): extend
the last segment by one tick when the same process just executed with no
intervening switch, else append a fresh unit segment. -/
def ganttStep (log : List (String × Int × Int)) (prev : Option Nat) (cid : Nat)
    (nm : String) (t : Int) : List (String × Int × Int) :=
  match log.getLast?, prev with
  | some last, some pid =>
    if pid = cid then
      if last.1 = nm then log.dropLast ++ [(last.1, last.2.1, t + 1)]
      else log ++ [(nm, t, t + 1)]
    else log ++ [(nm, t, t + 1)]
  | _, _ => log ++ [(nm, t, t + 1)]

/-- Step 6 of `scheduler_tick` (lines 905–907): drop Finished processes
from the ready queue. -/
def dropFinished (procs : List Process) (ready : List Nat) : List Nat :=
  ready.filter (fun pid =>
    match getP procs pid with
    | some p => p.state ≠ PState.Finished
    | none => true)

/-- Steps 4–6 of `scheduler_tick`: execute the current process for one tick
(updating the Gantt log, completion and the Round-Robin quantum), then
filter Finished processes out of the ready queue. -/
def execPhase (s : SimState) : SimState :=
  let s1 :=
    match s.current_process_id.bind (getP s.processes) with
    | some c =>
      if c.state = PState.Running then
        let procs1 := updateP s.processes c.id (decRun s.sim_time)
        let cpu1 := s.cpu_active_time + 1
        let gantt1 := ganttStep s.gantt_raw_log s.prev_executed_pid c.id c.name s.sim_time
        let rem1 := c.remaining_time - 1
        if rem1 ≤ 0 then
          { s with
            processes := updateP procs1 c.id (finishP s.sim_time)
            cpu_active_time := cpu1
            gantt_raw_log := gantt1
            completed_processes := s.completed_processes ++ [c.id]
            current_process_id := none
            prev_executed_pid := none
            ready_queue :=
              if c.id ∈ s.ready_queue then s.ready_queue.erase c.id else s.ready_queue }
        else if s.algorithm = Algorithm.RoundRobin then
          let counter1 := s.rr_quantum_counter + 1
          if s.time_quantum ≤ counter1 then
            { s with
              processes := updateP procs1 c.id toWaiting
              cpu_active_time := cpu1
              gantt_raw_log := gantt1
              rr_quantum_counter := 0
              current_process_id := none
              ready_queue :=
                if 0 < rem1 then
                  (if c.id ∈ s.ready_queue then s.ready_queue.erase c.id else s.ready_queue)
                    ++ [c.id]
                else s.ready_queue
              prev_executed_pid := none }
          else
            { s with
              processes := procs1
              cpu_active_time := cpu1
              gantt_raw_log := gantt1
              rr_quantum_counter := counter1
              prev_executed_pid := some c.id }
        else
          { s with
            processes := procs1
            cpu_active_time := cpu1
            gantt_raw_log := gantt1
            prev_executed_pid := some c.id }
      else { s with prev_executed_pid := none }
    | none => { s with prev_executed_pid := none }
  { s1 with ready_queue := dropFinished s1.processes s1.ready_queue }

/-- The `else` branch of step 3 of `scheduler_tick` (lines 844–857): CPU
idle or every process finished; may halt the run or fast-forward the clock
to the next arrival (also overwriting `cpu_active_time`, line 857). -/
def tickIdle (s2 : SimState) : SimState × Bool :=
  let s3 := { s2 with
    current_process_id := none
    prev_executed_pid := none }
  if (s3.processes.filter (fun p => p.state ≠ PState.Finished)).isEmpty then
    ({ s3 with running := false }, false)
  else if s3.ready_queue.isEmpty then
    match s3.un_arrived_processes with
    | fid :: _ =>
      match getP s3.processes fid with
      | some fp =>
        (execPhase { s3 with
          sim_time := fp.arrival_time - 1
          cpu_active_time := fp.arrival_time - 1 }, true)
      | none => (execPhase s3, false)
    | [] => (execPhase s3, false)
  else (execPhase s3, false)

/-- `scheduler_tick` of `src/app.py`; the second component records whether
the idle fast-forward (`sim_time := next_arrival - 1`) fired this tick. -/
def tickAux (s : SimState) : SimState × Bool :=
  let adm := releaseArrivals s.processes s.sim_time s.ready_queue s.un_arrived_processes
  let s1 := { s with
    ready_queue := adm.1
    un_arrived_processes := adm.2 }
  let current := s1.current_process_id.bind (getP s1.processes)
  let sel := selectNext s1 current
  let s2 := { s1 with ready_queue := sel.1 }
  match sel.2.bind (getP s2.processes) with
  | some np =>
    if np.state ≠ PState.Finished then
      let s3 :=
        if s2.current_process_id ≠ some np.id then
          let procs3 :=
            match current with
            | some c =>
              if c.state = PState.Running then
                updateP s2.processes c.id toWaiting
              else s2.processes
            | none => s2.processes
          let procs4 := updateP procs3 np.id (toRunning s2.sim_time)
          { s2 with
            processes := procs4
            current_process_id := some np.id
            rr_quantum_counter := 0
            prev_executed_pid := none
            ready_queue :=
              if np.id ∈ s2.ready_queue ∧
                  (s2.algorithm ≠ Algorithm.RoundRobin ∨ s2.ready_queue.head? = some np.id) then
                s2.ready_queue.erase np.id
              else s2.ready_queue }
        else s2
      (execPhase s3, false)
    else
      tickIdle s2
  | none =>
    tickIdle s2

/-- `scheduler_tick` followed by `st.session_state.sim_time += 1`
(lines 909–913 of `src/app.py`); one observable tick of a running engine. -/
def drive (s : SimState) : SimState :=
  let s' := (tickAux s).1
  { s' with sim_time := s'.sim_time + 1 }

/-- The ❌ Kill button handler of `tm_page` for the process with id `pid`
(lines 722–752 of `src/app.py`). -/
def applyKill (s : SimState) (pid : Nat) : SimState :=
  match getP s.processes pid with
  | none => s
  | some p =>
    let s1 :=
      if p.state ≠ PState.Finished then
        let procs1 := updateP s.processes pid (killP s.sim_time)
        let gantt1 :=
          if s.current_process_id = some pid ∧ p.start_execution_time ≠ none ∧
              p.last_run_time ≠ none then
            match s.gantt_raw_log.getLast? with
            | some last =>
              if last.1 = p.name then
                s.gantt_raw_log.dropLast ++ [(last.1, last.2.1, s.sim_time)]
              else s.gantt_raw_log
            | none => s.gantt_raw_log
          else s.gantt_raw_log
        let completed1 :=
          if pid ∈ s.completed_processes then s.completed_processes
          else s.completed_processes ++ [pid]
        { s with
          processes := procs1
          gantt_raw_log := gantt1
          completed_processes := completed1 }
      else s
    let s2 := { s1 with
      ready_queue := s1.ready_queue.filter (fun q => q ≠ pid)
      un_arrived_processes := s1.un_arrived_processes.filter (fun q => q ≠ pid) }
    let s3 :=
      if s2.current_process_id = some pid then
        { s2 with
          current_process_id := none
          rr_quantum_counter := 0
          prev_executed_pid := none }
      else s2
    if s3.completed_processes.length = s3.processes.length then
      { s3 with running := false }
    else s3

/-- The ➕ Add Task form handler (lines 654–663 of `src/app.py`): the new
process is appended to `st.session_state.processes` with
`addition_order = len(processes)`, and nothing else changes (in particular
`un_arrived_processes` is not touched). -/
def applyAdd (s : SimState) (id : Nat) (name : String) (arrival burst priority : Int) :
    SimState :=
  { s with processes :=
      s.processes ++ [mkProcess id name arrival burst priority s.processes.length] }

/-- The Start button handler (lines 667–691 of `src/app.py`).  If the
process set is empty nothing happens at all; otherwise all dynamic state is
reset and the arrival feed is rebuilt sorted by `(arrival_time,
addition_order)`. -/
def startRun (s : SimState) (alg : Algorithm) (quantum : Int) : SimState :=
  if s.processes.isEmpty then s
  else
    let procs := s.processes.map resetP
    { s with
      processes := procs
      running := true
      sim_time := 0
      cpu_active_time := 0
      rr_quantum_counter := 0
      current_process_id := none
      gantt_raw_log := []
      ready_queue := []
      completed_processes := []
      prev_executed_pid := none
      algorithm := alg
      time_quantum := quantum
      un_arrived_processes :=
        (sortB (fun a b => lex2 (keyArrival a) (keyArrival b)) procs).map Process.id }

/-- A fresh `st.session_state` as initialised at the top of `tm_page`,
with a given process list (built by Add Task submissions). -/
def mkState (ps : List Process) : SimState :=
  { processes := ps
    running := false
    current_process_id := none
    algorithm := Algorithm.FCFS
    time_quantum := 2
    rr_quantum_counter := 0
    gantt_raw_log := []
    sim_time := 0
    cpu_active_time := 0
    ready_queue := []
    un_arrived_processes := []
    completed_processes := []
    prev_executed_pid := none }

/-- `calculate_metrics`: turnaround time (only reported for Finished
processes, as the method returns `{}` otherwise). -/
def Process.metricsTurnaround (p : Process) : Option Int :=
  if p.state = PState.Finished then p.completion_time.map (fun c => c - p.arrival_time)
  else none

/-- `calculate_metrics`: waiting time = turnaround − burst. -/
def Process.metricsWaiting (p : Process) : Option Int :=
  (p.metricsTurnaround).map (fun t => t - p.burst_time)

/-- `calculate_metrics`: response time = start_execution − arrival. -/
def Process.metricsResponse (p : Process) : Option Int :=
  if p.state = PState.Finished then p.start_execution_time.map (fun t0 => t0 - p.arrival_time)
  else none

/-- Total duration recorded in the Timeline (Gantt) Log. -/
def ganttSum (log : List (String × Int × Int)) : Int :=
  (log.map (fun seg => seg.2.2 - seg.2.1)).sum

/-! ### Facts about the strict lexicographic orders -/

theorem lex2_iff (a b : Int × Int) :
    lex2 a b = true ↔ (a.1 < b.1 ∨ (a.1 = b.1 ∧ a.2 < b.2)) := by
  simp [lex2]

theorem lex2_false_iff (a b : Int × Int) :
    lex2 a b = false ↔ ¬(a.1 < b.1 ∨ (a.1 = b.1 ∧ a.2 < b.2)) := by
  rw [← lex2_iff]
  exact Bool.not_eq_true (lex2 a b) |>.symm ▸ Iff.rfl

theorem lex2_asymm {a b : Int × Int} (h : lex2 a b = true) : lex2 b a = false := by
  rw [lex2_iff] at h
  rw [lex2_false_iff]
  omega

theorem lex2_negtrans {a b c : Int × Int} (h1 : lex2 b a = false) (h2 : lex2 c b = false) :
    lex2 c a = false := by
  rw [lex2_false_iff] at h1 h2 ⊢
  omega

theorem lex3_iff (a b : Int × Int × Int) :
    lex3 a b = true ↔
      (a.1 < b.1 ∨ (a.1 = b.1 ∧ (a.2.1 < b.2.1 ∨ (a.2.1 = b.2.1 ∧ a.2.2 < b.2.2)))) := by
  simp [lex3, lex2]

theorem lex3_false_iff (a b : Int × Int × Int) :
    lex3 a b = false ↔
      ¬(a.1 < b.1 ∨ (a.1 = b.1 ∧ (a.2.1 < b.2.1 ∨ (a.2.1 = b.2.1 ∧ a.2.2 < b.2.2)))) := by
  rw [← lex3_iff]
  exact Bool.not_eq_true (lex3 a b) |>.symm ▸ Iff.rfl

theorem lex3_asymm {a b : Int × Int × Int} (h : lex3 a b = true) : lex3 b a = false := by
  rw [lex3_iff] at h
  rw [lex3_false_iff]
  omega

theorem lex3_negtrans {a b c : Int × Int × Int} (h1 : lex3 b a = false)
    (h2 : lex3 c b = false) : lex3 c a = false := by
  rw [lex3_false_iff] at h1 h2 ⊢
  omega

/-! ### The stable insertion sort -/

theorem mem_insertB {lt : α → α → Bool} {a x : α} {l : List α} :
    x ∈ insertB lt a l ↔ x = a ∨ x ∈ l := by
  induction l with
  | nil => simp [insertB]
  | cons b bs ih =>
    by_cases h : lt b a = true <;> simp [insertB, h, ih] <;> tauto

theorem insertB_perm (lt : α → α → Bool) (a : α) (l : List α) :
    (insertB lt a l).Perm (a :: l) := by
  induction l with
  | nil => simp [insertB]
  | cons b bs ih =>
    by_cases h : lt b a = true
    · simpa [insertB, h] using (ih.cons b).trans (List.Perm.swap a b bs)
    · simp [insertB, h]

theorem sortB_perm (lt : α → α → Bool) (l : List α) : (sortB lt l).Perm l := by
  induction l with
  | nil => simp [sortB]
  | cons x xs ih => exact (insertB_perm lt x (sortB lt xs)).trans (ih.cons x)

theorem mem_sortB {lt : α → α → Bool} {x : α} {l : List α} :
    x ∈ sortB lt l ↔ x ∈ l :=
  (sortB_perm lt l).mem_iff

theorem insertB_pairwise {lt : α → α → Bool}
    (hA : ∀ a b, lt a b = true → lt b a = false)
    (hT : ∀ a b c, lt b a = false → lt c b = false → lt c a = false)
    {a : α} {l : List α} (h : l.Pairwise (fun x y => lt y x = false)) :
    (insertB lt a l).Pairwise (fun x y => lt y x = false) := by
  induction l with
  | nil => simp [insertB]
  | cons b bs ih =>
    rcases List.pairwise_cons.mp h with ⟨hb, hbs⟩
    by_cases hlt : lt b a = true
    · simp only [insertB, hlt, if_true]
      refine List.pairwise_cons.mpr ⟨?_, ih hbs⟩
      intro y hy
      rcases mem_insertB.mp hy with rfl | hy'
      · exact hA _ _ hlt
      · exact hb y hy'
    · simp only [insertB, hlt, if_false, Bool.false_eq_true]
      refine List.pairwise_cons.mpr ⟨?_, h⟩
      intro y hy
      have hba : lt b a = false := by
        cases hba : lt b a
        · rfl
        · exact absurd hba hlt
      rcases List.mem_cons.mp hy with rfl | hy'
      · exact hba
      · exact hT a b y hba (hb y hy')

theorem sortB_pairwise {lt : α → α → Bool}
    (hA : ∀ a b, lt a b = true → lt b a = false)
    (hT : ∀ a b c, lt b a = false → lt c b = false → lt c a = false)
    (l : List α) : (sortB lt l).Pairwise (fun x y => lt y x = false) := by
  induction l with
  | nil => simp [sortB]
  | cons x xs ih => exact insertB_pairwise hA hT ih

/-- The head of the stable sort is minimal: no element of the input is
strictly below it. -/
theorem sortB_head_min {lt : α → α → Bool}
    (hA : ∀ a b, lt a b = true → lt b a = false)
    (hT : ∀ a b c, lt b a = false → lt c b = false → lt c a = false)
    {l : List α} {h : α} (hh : (sortB lt l).head? = some h) :
    ∀ x ∈ l, lt x h = false := by
  intro x hx
  have hx' : x ∈ sortB lt l := mem_sortB.mpr hx
  rcases hs : sortB lt l with _ | ⟨y, t⟩
  · rw [hs] at hx'; cases hx'
  · rw [hs] at hh hx'
    have hy : y = h := by simpa using hh
    subst hy
    rcases List.mem_cons.mp hx' with rfl | hxt
    · cases hlt : lt x x
      · rfl
      · exact absurd (hA _ _ hlt) (by simp [hlt])
    · have hp := sortB_pairwise hA hT l
      rw [hs] at hp
      exact (List.pairwise_cons.mp hp).1 x hxt

/-! ### Facts about the store lookup and in-place update -/

theorem getP_id {procs : List Process} {pid : Nat} {p : Process}
    (h : getP procs pid = some p) : p.id = pid := by
  have := List.find?_some h
  simpa using this

theorem getP_mem_store {procs : List Process} {pid : Nat} {p : Process}
    (h : getP procs pid = some p) : p ∈ procs :=
  List.mem_of_find?_eq_some h

theorem getP_of_mem {procs : List Process} {p : Process}
    (hnd : (procs.map Process.id).Nodup) (hp : p ∈ procs) :
    getP procs p.id = some p := by
  induction procs with
  | nil => cases hp
  | cons q rest ih =>
    rw [List.map_cons, List.nodup_cons] at hnd
    rcases List.mem_cons.mp hp with rfl | hmem
    · simp [getP]
    · have hq : (q.id == p.id) = false := by
        rw [beq_eq_false_iff_ne]
        intro he
        exact hnd.1 (he ▸ List.mem_map_of_mem Process.id hmem)
      unfold getP
      rw [List.find?_cons_of_neg _ (by simp [hq])]
      exact ih hnd.2 hmem

theorem getP_append_left {procs ext : List Process} {pid : Nat} {p : Process}
    (h : getP procs pid = some p) : getP (procs ++ ext) pid = some p := by
  unfold getP at h ⊢
  rw [List.find?_append, h]
  rfl

theorem getP_updateP_other {procs : List Process} {pid qid : Nat} {f : Process → Process}
    (hid : ∀ x, (f x).id = x.id) (hne : qid ≠ pid) :
    getP (updateP procs pid f) qid = getP procs qid := by
  induction procs with
  | nil => rfl
  | cons q rest ih =>
    unfold updateP getP at ih ⊢
    rw [List.map_cons]
    by_cases hq : q.id = pid
    · rw [if_pos hq]
      have h1 : ¬((f q).id == qid) = true := by
        rw [beq_iff_eq, hid, hq]
        exact fun h => hne h.symm
      have h2 : ¬(q.id == qid) = true := by
        rw [beq_iff_eq, hq]
        exact fun h => hne h.symm
      have e2 : List.find? (fun p => p.id == qid) (q :: rest) =
          List.find? (fun p => p.id == qid) rest :=
        List.find?_cons_of_neg _ h2
      have e1 : List.find? (fun p => p.id == qid)
            (f q :: List.map (fun p => if p.id = pid then f p else p) rest) =
          List.find? (fun p => p.id == qid)
            (List.map (fun p => if p.id = pid then f p else p) rest) :=
        List.find?_cons_of_neg _ h1
      rw [e1, e2]
      exact ih
    · rw [if_neg hq]
      by_cases hq2 : q.id = qid
      · have e2 : List.find? (fun p => p.id == qid) (q :: rest) = some q :=
          List.find?_cons_of_pos _ (by simp [hq2])
        rw [e2]
        exact List.find?_cons_of_pos _ (by simp [hq2])
      · have e2 : List.find? (fun p => p.id == qid) (q :: rest) =
            List.find? (fun p => p.id == qid) rest :=
          List.find?_cons_of_neg _ (by simp [hq2])
        have e1 : List.find? (fun p => p.id == qid)
              (q :: List.map (fun p => if p.id = pid then f p else p) rest) =
            List.find? (fun p => p.id == qid)
              (List.map (fun p => if p.id = pid then f p else p) rest) :=
          List.find?_cons_of_neg _ (by simp [hq2])
        rw [e1, e2]
        exact ih

theorem getP_updateP_self {procs : List Process} {pid : Nat} {f : Process → Process}
    (hid : ∀ x, (f x).id = x.id) :
    getP (updateP procs pid f) pid = (getP procs pid).map f := by
  induction procs with
  | nil => rfl
  | cons q rest ih =>
    unfold updateP getP at ih ⊢
    rw [List.map_cons]
    by_cases hq : q.id = pid
    · rw [if_pos hq]
      have e2 : List.find? (fun p => p.id == pid) (q :: rest) = some q :=
        List.find?_cons_of_pos _ (by simp [hq])
      rw [e2]
      exact List.find?_cons_of_pos _ (by simp [hid, hq])
    · rw [if_neg hq]
      have e2 : List.find? (fun p => p.id == pid) (q :: rest) =
          List.find? (fun p => p.id == pid) rest :=
        List.find?_cons_of_neg _ (by simp [hq])
      rw [e2]
      exact (List.find?_cons_of_neg _ (by simp [hq])).trans ih

theorem updateP_map_id {procs : List Process} {pid : Nat} {f : Process → Process}
    (hid : ∀ x, (f x).id = x.id) :
    (updateP procs pid f).map Process.id = procs.map Process.id := by
  unfold updateP
  rw [List.map_map]
  refine List.map_congr_left ?_
  intro p _
  by_cases hp : p.id = pid <;> simp [hp, hid]

theorem updateP_length {procs : List Process} {pid : Nat} {f : Process → Process} :
    (updateP procs pid f).length = procs.length := by
  simp [updateP]

/-! ### Specification of the arrival-admission loop -/

theorem releaseArrivals_spec (procs : List Process) (t : Int) :
    ∀ (unarr ready r u : List Nat),
    releaseArrivals procs t ready unarr = (r, u) →
    ready.Nodup → unarr.Nodup → (∀ i ∈ ready, i ∉ unarr) →
    r.Nodup ∧ u.Nodup ∧ (∀ i ∈ r, i ∉ u) ∧
    (∀ i ∈ r, i ∈ ready ∨ (i ∈ unarr ∧ ∃ p, getP procs i = some p ∧
        p.arrival_time ≤ t ∧ p.state ≠ PState.Finished)) ∧
    (∀ i ∈ u, i ∈ unarr) ∧
    (∀ fid rest, u = fid :: rest → ∀ p, getP procs fid = some p → t < p.arrival_time) := by
  intro unarr
  induction unarr with
  | nil =>
    intro ready r u h hr _ hd
    unfold releaseArrivals at h
    cases h
    exact ⟨hr, List.nodup_nil, by simp, fun i hi => Or.inl hi, by simp, by simp⟩
  | cons pid rest ih =>
    intro ready r u h hr hu hd
    rw [List.nodup_cons] at hu
    unfold releaseArrivals at h
    cases hg : getP procs pid with
    | none =>
      rw [hg] at h
      dsimp only at h
      cases h
      refine ⟨hr, List.nodup_cons.mpr hu, hd, fun i hi => Or.inl hi, by simp, ?_⟩
      intro fid rest' he p hp
      cases he
      rw [hg] at hp
      cases hp
    | some p =>
      rw [hg] at h
      dsimp only at h
      by_cases ha : p.arrival_time ≤ t
      · rw [if_pos ha] at h
        have hpid_not_ready : pid ∉ ready := fun hmem => (hd pid hmem) (List.mem_cons_self pid rest)
        have hd' : ∀ i ∈ ready, i ∉ rest := fun i hi hir =>
          (hd i hi) (List.mem_cons_of_mem pid hir)
        by_cases hs : p.state ≠ PState.Finished
        · rw [if_pos hs] at h
          have hr' : (ready ++ [pid]).Nodup := by
            simp [List.nodup_append, hr, hpid_not_ready]
          have hd2 : ∀ i ∈ ready ++ [pid], i ∉ rest := by
            intro i hi
            rcases List.mem_append.mp hi with hi1 | hi2
            · exact hd' i hi1
            · have : i = pid := by simpa using hi2
              exact this ▸ hu.1
          obtain ⟨c1, c2, c3, c4, c5, c6⟩ := ih (ready ++ [pid]) r u h hr' hu.2 hd2
          refine ⟨c1, c2, c3, ?_, fun i hi => List.mem_cons_of_mem pid (c5 i hi), c6⟩
          intro i hi
          rcases c4 i hi with hi1 | ⟨hi2, hp⟩
          · rcases List.mem_append.mp hi1 with hi3 | hi4
            · exact Or.inl hi3
            · have hip : i = pid := by simpa using hi4
              subst hip
              exact Or.inr ⟨List.mem_cons_self i rest, p, hg, ha, hs⟩
          · exact Or.inr ⟨List.mem_cons_of_mem pid hi2, hp⟩
        · rw [if_neg hs] at h
          obtain ⟨c1, c2, c3, c4, c5, c6⟩ := ih ready r u h hr hu.2 hd'
          refine ⟨c1, c2, c3, ?_, fun i hi => List.mem_cons_of_mem pid (c5 i hi), c6⟩
          intro i hi
          rcases c4 i hi with hi1 | ⟨hi2, hp⟩
          · exact Or.inl hi1
          · exact Or.inr ⟨List.mem_cons_of_mem pid hi2, hp⟩
      · rw [if_neg ha] at h
        cases h
        refine ⟨hr, List.nodup_cons.mpr hu, hd, fun i hi => Or.inl hi, by simp, ?_⟩
        intro fid rest' he q hq
        cases he
        rw [hg] at hq
        cases hq
        omega

/-! ### The tick-boundary invariant

`InvAt s t` says that `s` is well formed when the current boundary time is
`t`; it never reads `s.sim_time`, so it is stable under the final
`sim_time += 1` of the driver loop. -/

structure InvAt (s : SimState) (t : Int) : Prop where
  idsNodup : (s.processes.map Process.id).Nodup
  readyNodup : s.ready_queue.Nodup
  unarrNodup : s.un_arrived_processes.Nodup
  readyUnarr : ∀ i ∈ s.ready_queue, i ∉ s.un_arrived_processes
  readyMem : ∀ i ∈ s.ready_queue, ∃ p, getP s.processes i = some p ∧
      p.state = PState.Waiting ∧ p.arrival_time ≤ t ∧ 1 ≤ p.remaining_time
  unarrMem : ∀ i ∈ s.un_arrived_processes, ∃ p, getP s.processes i = some p ∧
      p.state = PState.Waiting ∧ 1 ≤ p.remaining_time
  prevEq : s.prev_executed_pid = s.current_process_id
  currentSpec : ∀ cid, s.current_process_id = some cid →
      cid ∉ s.ready_queue ∧ cid ∉ s.un_arrived_processes ∧
      ∃ p, getP s.processes cid = some p ∧ p.state = PState.Running ∧
        1 ≤ p.remaining_time ∧ p.arrival_time + 1 ≤ t ∧
        p.start_execution_time ≠ none ∧ p.last_run_time ≠ none ∧
        ∃ t0, s.gantt_raw_log.getLast? = some (p.name, t0, t)
  bounds : ∀ p ∈ s.processes, 1 ≤ p.burst_time ∧ 0 ≤ p.arrival_time ∧
      p.remaining_time ≤ p.burst_time
  completedNodup : s.completed_processes.Nodup
  completedIff : ∀ i, i ∈ s.completed_processes ↔
      ∃ p, getP s.processes i = some p ∧ p.state = PState.Finished

/-- The invariant at a tick boundary. -/
abbrev Inv (s : SimState) : Prop := InvAt s s.sim_time

/-- Execution accounting used for the metric bounds: a Finished process
completed no earlier than `arrival + burst` and started no earlier than
`arrival`; an unfinished process has executed at most `t - arrival` units. -/
structure InvMAt (s : SimState) (t : Int) : Prop where
  finSpec : ∀ p ∈ s.processes, p.state = PState.Finished →
      ∃ c t0, p.completion_time = some c ∧ p.start_execution_time = some t0 ∧
        p.arrival_time ≤ t0 ∧ p.arrival_time + p.burst_time ≤ c
  exeBound : ∀ p ∈ s.processes, p.state ≠ PState.Finished →
      p.burst_time - p.remaining_time ≤ max 0 (t - p.arrival_time)
  startBound : ∀ p ∈ s.processes, ∀ t0, p.start_execution_time = some t0 →
      p.arrival_time ≤ t0

/-- The metric invariant at a tick boundary. -/
abbrev InvM (s : SimState) : Prop := InvMAt s s.sim_time

/-- The Timeline Log / CPU-time accounting invariant. -/
def InvG (s : SimState) : Prop := ganttSum s.gantt_raw_log = s.cpu_active_time

theorem invAt_set_sim {s : SimState} {t x : Int} (h : InvAt s t) :
    InvAt { s with sim_time := x } t := by
  cases h
  constructor <;> assumption

theorem invMAt_set_sim {s : SimState} {t x : Int} (h : InvMAt s t) :
    InvMAt { s with sim_time := x } t := by
  cases h
  constructor <;> assumption

theorem invMAt_mono {s : SimState} {t t' : Int} (h : InvMAt s t) (ht : t ≤ t') :
    InvMAt s t' := by
  refine ⟨h.finSpec, ?_, h.startBound⟩
  intro p hp hf
  have := h.exeBound p hp hf
  omega

/-! ### Gantt-log and cleanup lemmas -/

theorem ganttSum_concat (l : List (String × Int × Int)) (x : String × Int × Int) :
    ganttSum (l ++ [x]) = ganttSum l + (x.2.2 - x.2.1) := by
  simp [ganttSum]

theorem gantt_last_decomp {log : List (String × Int × Int)} {x : String × Int × Int}
    (h : log.getLast? = some x) : log = log.dropLast ++ [x] := by
  have hne : log ≠ [] := by rintro rfl; simp at h
  have hd := List.dropLast_append_getLast hne
  have h2 : log.getLast hne = x := by
    rw [List.getLast?_eq_getLast log hne] at h
    injection h
  conv_lhs => rw [← hd]
  rw [h2]

theorem ganttSum_extend {log : List (String × Int × Int)} {nm : String} {t0 e : Int}
    (h : log.getLast? = some (nm, t0, e)) :
    ganttSum (log.dropLast ++ [(nm, t0, e + 1)]) = ganttSum log + 1 := by
  conv_rhs => rw [gantt_last_decomp h]
  rw [ganttSum_concat, ganttSum_concat]
  ring

theorem ganttStep_prev_none (log : List (String × Int × Int)) (cid : Nat) (nm : String)
    (t : Int) : ganttStep log none cid nm t = log ++ [(nm, t, t + 1)] := by
  unfold ganttStep
  rcases log.getLast? with _ | l <;> rfl

theorem ganttStep_extend {log : List (String × Int × Int)} {cid : Nat} {nm : String}
    {t t0 : Int} (h : log.getLast? = some (nm, t0, t)) :
    ganttStep log (some cid) cid nm t = log.dropLast ++ [(nm, t0, t + 1)] := by
  unfold ganttStep
  rw [h]
  dsimp only
  rw [if_pos rfl, if_pos rfl]

theorem ganttStep_last {log : List (String × Int × Int)} {prev : Option Nat} {cid : Nat}
    {nm : String} {t : Int}
    (hok : prev = none ∨ (prev = some cid ∧ ∃ t0, log.getLast? = some (nm, t0, t))) :
    ∃ t0, (ganttStep log prev cid nm t).getLast? = some (nm, t0, t + 1) := by
  rcases hok with rfl | ⟨rfl, t0, hlast⟩
  · exact ⟨t, by rw [ganttStep_prev_none]; exact List.getLast?_concat log⟩
  · exact ⟨t0, by rw [ganttStep_extend hlast]; exact List.getLast?_concat _⟩

theorem ganttStep_sum {log : List (String × Int × Int)} {prev : Option Nat} {cid : Nat}
    {nm : String} {t : Int}
    (hok : prev = none ∨ (prev = some cid ∧ ∃ t0, log.getLast? = some (nm, t0, t))) :
    ganttSum (ganttStep log prev cid nm t) = ganttSum log + 1 := by
  rcases hok with rfl | ⟨rfl, t0, hlast⟩
  · rw [ganttStep_prev_none, ganttSum_concat]
    ring
  · rw [ganttStep_extend hlast]
    exact ganttSum_extend hlast

theorem dropFinished_sublist (procs : List Process) (ready : List Nat) :
    (dropFinished procs ready).Sublist ready :=
  List.filter_sublist ready

theorem mem_dropFinished {procs : List Process} {ready : List Nat} {i : Nat}
    (h : i ∈ dropFinished procs ready) : i ∈ ready :=
  List.mem_of_mem_filter h

/-! ### Selection lemmas -/

theorem selectNext_continue (s : SimState) {c : Process}
    (hrun : c.state = PState.Running) (hrem : 0 < c.remaining_time) :
    (selectNext s (some c)).2 = some c.id ∧
      (selectNext s (some c)).1.Perm s.ready_queue := by
  cases halg : s.algorithm <;>
    simp [selectNext, halg, hrun, hrem, sortB_perm]

theorem selectNext_none_spec (s : SimState) :
    (selectNext s none).1.Perm s.ready_queue ∧
    ∀ nid, (selectNext s none).2 = some nid →
      nid ∈ (selectNext s none).1 ∧
      (s.algorithm = Algorithm.RoundRobin →
        (selectNext s none).1.head? = some nid) := by
  cases halg : s.algorithm
  case FCFS =>
    refine ⟨by simp [selectNext, halg, sortB_perm], ?_⟩
    intro nid hnid
    simp only [selectNext, halg] at hnid ⊢
    refine ⟨?_, by intro h; exact absurd h (by decide)⟩
    exact List.mem_of_mem_head? (by simpa using hnid)
  case SJF =>
    refine ⟨by simp [selectNext, halg], ?_⟩
    intro nid hnid
    simp only [selectNext, halg] at hnid ⊢
    refine ⟨?_, by intro h; exact absurd h (by decide)⟩
    rcases Option.map_eq_some'.mp hnid with ⟨q, hq, hqid⟩
    have hqmem : q ∈ sortB (fun a b => lex3 (keySJF a) (keySJF b))
        ((s.ready_queue.filterMap (getP s.processes)).filter
          (fun p => p.state = PState.Waiting)) :=
      List.mem_of_mem_head? hq
    have hqmem2 := List.mem_filter.mp (mem_sortB.mp hqmem)
    rcases List.mem_filterMap.mp hqmem2.1 with ⟨i, hi, hgi⟩
    have : q.id = i := getP_id hgi
    rw [← hqid, this]
    exact hi
  case Priority =>
    refine ⟨by simp [selectNext, halg], ?_⟩
    intro nid hnid
    simp only [selectNext, halg] at hnid ⊢
    refine ⟨?_, by intro h; exact absurd h (by decide)⟩
    rcases Option.map_eq_some'.mp hnid with ⟨q, hq, hqid⟩
    have hqmem : q ∈ sortB (fun a b => lex3 (keyPriority a) (keyPriority b))
        ((s.ready_queue.filterMap (getP s.processes)).filter
          (fun p => p.state = PState.Waiting)) :=
      List.mem_of_mem_head? hq
    have hqmem2 := List.mem_filter.mp (mem_sortB.mp hqmem)
    rcases List.mem_filterMap.mp hqmem2.1 with ⟨i, hi, hgi⟩
    have : q.id = i := getP_id hgi
    rw [← hqid, this]
    exact hi
  case RoundRobin =>
    refine ⟨by simp [selectNext, halg], ?_⟩
    intro nid hnid
    simp only [selectNext, halg] at hnid ⊢
    exact ⟨List.mem_of_mem_head? hnid, fun _ => hnid⟩

/-! ### Execution-phase preservation -/

theorem updateP_forall {procs : List Process} {pid : Nat} {f : Process → Process}
    {B : Process → Prop} (hb : ∀ q ∈ procs, B q) (hf : ∀ q, B q → B (f q)) :
    ∀ q ∈ updateP procs pid f, B q := by
  intro q hq
  rcases List.mem_map.mp hq with ⟨r, hr, he⟩
  by_cases hid : r.id = pid
  · rw [if_pos hid] at he
    exact he ▸ hf r (hb r hr)
  · rw [if_neg hid] at he
    exact he ▸ hb r hr

theorem mem_updateP_decomp {procs : List Process} {pid : Nat} {f : Process → Process}
    {q : Process} (h : q ∈ updateP procs pid f) :
    ∃ r ∈ procs, q = if r.id = pid then f r else r := by
  rcases List.mem_map.mp h with ⟨r, hr, he⟩
  exact ⟨r, hr, he.symm⟩

theorem getP_unique {procs : List Process} {pid : Nat} {p r : Process}
    (hnd : (procs.map Process.id).Nodup) (hr : r ∈ procs) (hid : r.id = pid)
    (hp : getP procs pid = some p) : r = p := by
  have h2 := getP_of_mem hnd hr
  rw [hid, hp] at h2
  injection h2 with h3
  exact h3.symm

theorem updateP_updateP {procs : List Process} {pid : Nat} {f g : Process → Process}
    (hid : ∀ x, (f x).id = x.id) :
    updateP (updateP procs pid f) pid g = updateP procs pid (fun x => g (f x)) := by
  unfold updateP
  rw [List.map_map]
  refine List.map_congr_left ?_
  intro r _
  by_cases hr : r.id = pid
  · simp [hr, hid]
  · simp [hr]

/-- Precondition of steps 4-6 inside one tick: the boundary invariant
restated after admission, selection and a possible dispatch. -/
structure Pre (u : SimState) : Prop where
  idsNodup : (u.processes.map Process.id).Nodup
  readyNodup : u.ready_queue.Nodup
  unarrNodup : u.un_arrived_processes.Nodup
  readyUnarr : ∀ i ∈ u.ready_queue, i ∉ u.un_arrived_processes
  readyMem : ∀ i ∈ u.ready_queue, ∃ p, getP u.processes i = some p ∧
      p.state = PState.Waiting ∧ p.arrival_time ≤ u.sim_time ∧ 1 ≤ p.remaining_time
  unarrMem : ∀ i ∈ u.un_arrived_processes, ∃ p, getP u.processes i = some p ∧
      p.state = PState.Waiting ∧ 1 ≤ p.remaining_time
  bounds : ∀ p ∈ u.processes, 1 ≤ p.burst_time ∧ 0 ≤ p.arrival_time ∧
      p.remaining_time ≤ p.burst_time
  completedNodup : u.completed_processes.Nodup
  completedIff : ∀ i, i ∈ u.completed_processes ↔
      ∃ p, getP u.processes i = some p ∧ p.state = PState.Finished
  curr : (u.current_process_id = none ∧ u.prev_executed_pid = none) ∨
      (∃ cid p, u.current_process_id = some cid ∧ cid ∉ u.ready_queue ∧
        cid ∉ u.un_arrived_processes ∧ getP u.processes cid = some p ∧
        p.state = PState.Running ∧ 1 ≤ p.remaining_time ∧
        p.arrival_time ≤ u.sim_time ∧ p.start_execution_time ≠ none ∧
        (u.prev_executed_pid = none ∨
          (u.prev_executed_pid = some cid ∧
            ∃ t0, u.gantt_raw_log.getLast? = some (p.name, t0, u.sim_time))))

theorem execPhase_pres {u : SimState} (h : Pre u) :
    InvAt (execPhase u) (u.sim_time + 1) ∧
    (execPhase u).sim_time = u.sim_time ∧
    (execPhase u).running = u.running ∧
    (InvMAt u u.sim_time → InvMAt (execPhase u) (u.sim_time + 1)) ∧
    (ganttSum u.gantt_raw_log = u.cpu_active_time →
      ganttSum (execPhase u).gantt_raw_log = (execPhase u).cpu_active_time) ∧
    (∀ i ∈ u.completed_processes, i ∈ (execPhase u).completed_processes) := by
  rcases h.curr with ⟨hcur, hprev⟩ | ⟨cid, p, hcur, hcr, hcu, hp, hrun, hrem, harr, hstart, hgopt⟩
  · have hbind : u.current_process_id.bind (getP u.processes) = none := by rw [hcur]; rfl
    unfold execPhase
    rw [hbind]
    dsimp only
    refine ⟨⟨h.idsNodup, (dropFinished_sublist _ _).nodup h.readyNodup, h.unarrNodup,
      ?_, ?_, h.unarrMem, hcur.symm, ?_, h.bounds, h.completedNodup, h.completedIff⟩,
      rfl, rfl, ?_, ?_, fun i hi => hi⟩
    · intro i hi
      exact h.readyUnarr i (mem_dropFinished hi)
    · intro i hi
      rcases h.readyMem i (mem_dropFinished hi) with ⟨q, hq1, hq2, hq3, hq4⟩
      exact ⟨q, hq1, hq2, by omega, hq4⟩
    · intro c2 hc2
      rw [hcur] at hc2
      cases hc2
    · intro hm
      refine ⟨hm.finSpec, ?_, hm.startBound⟩
      intro q hq hqf
      have := hm.exeBound q hq hqf
      omega
    · intro hg
      exact hg
  · have hpid : p.id = cid := getP_id hp
    subst hpid
    have hbind : u.current_process_id.bind (getP u.processes) = some p := by
      rw [hcur]
      simpa using hp
    have hgok : u.prev_executed_pid = none ∨
        (u.prev_executed_pid = some p.id ∧
          ∃ t0, u.gantt_raw_log.getLast? = some (p.name, t0, u.sim_time)) := hgopt
    obtain ⟨tg, hglast⟩ := ganttStep_last hgok
    have hgsum := ganttStep_sum hgok
    have hidDec : ∀ x : Process, (decRun u.sim_time x).id = x.id := fun x => rfl
    have hidFin : ∀ x : Process, (finishP u.sim_time x).id = x.id := fun x => rfl
    have hidWait : ∀ x : Process, (toWaiting x).id = x.id := fun x => rfl
    have hp1 : getP (updateP u.processes p.id (decRun u.sim_time)) p.id
        = some (decRun u.sim_time p) := by
      rw [getP_updateP_self hidDec, hp]
      rfl
    have hoth1 : ∀ i, i ≠ p.id → getP (updateP u.processes p.id (decRun u.sim_time)) i
        = getP u.processes i := fun i hi => getP_updateP_other hidDec hi
    have hmap1 : (updateP u.processes p.id (decRun u.sim_time)).map Process.id
        = u.processes.map Process.id := updateP_map_id hidDec
    have hnotin : p.id ∉ u.completed_processes := by
      intro hin
      rcases (h.completedIff p.id).mp hin with ⟨q, hq1, hq2⟩
      rw [hp] at hq1
      injection hq1 with hq1
      rw [← hq1, hrun] at hq2
      cases hq2
    have hreadyNe : ∀ i ∈ u.ready_queue, i ≠ p.id := fun i hi hieq => hcr (hieq ▸ hi)
    have hunarrNe : ∀ i ∈ u.un_arrived_processes, i ≠ p.id := fun i hi hieq => hcu (hieq ▸ hi)
    have hboundsDec : ∀ q ∈ updateP u.processes p.id (decRun u.sim_time),
        1 ≤ q.burst_time ∧ 0 ≤ q.arrival_time ∧ q.remaining_time ≤ q.burst_time := by
      refine updateP_forall h.bounds ?_
      intro q hq
      refine ⟨hq.1, hq.2.1, ?_⟩
      show q.remaining_time - 1 ≤ q.burst_time
      omega
    have hpmem : p ∈ u.processes := getP_mem_store hp
    unfold execPhase
    rw [hbind]
    dsimp only
    rw [if_pos hrun]
    by_cases hfin : p.remaining_time - 1 ≤ 0
    · rw [if_pos hfin, if_neg hcr]
      dsimp only
      have hp2 : getP (updateP (updateP u.processes p.id (decRun u.sim_time)) p.id
          (finishP u.sim_time)) p.id
          = some (finishP u.sim_time (decRun u.sim_time p)) := by
        rw [getP_updateP_self hidFin, hp1]
        rfl
      have hoth2 : ∀ i, i ≠ p.id →
          getP (updateP (updateP u.processes p.id (decRun u.sim_time)) p.id
            (finishP u.sim_time)) i = getP u.processes i := fun i hi => by
        rw [getP_updateP_other hidFin hi, hoth1 i hi]
      refine ⟨⟨?_, ?_, h.unarrNodup, ?_, ?_, ?_, rfl, ?_, ?_, ?_, ?_⟩, rfl, rfl, ?_, ?_,
        fun i hi => List.mem_append_left _ hi⟩
      · rw [updateP_map_id hidFin, hmap1]
        exact h.idsNodup
      · exact (dropFinished_sublist _ _).nodup h.readyNodup
      · intro i hi
        exact h.readyUnarr i (mem_dropFinished hi)
      · intro i hi
        have hi0 := mem_dropFinished hi
        rcases h.readyMem i hi0 with ⟨q, hq1, hq2, hq3, hq4⟩
        exact ⟨q, by rw [hoth2 i (hreadyNe i hi0), hq1], hq2, by omega, hq4⟩
      · intro i hi
        rcases h.unarrMem i hi with ⟨q, hq1, hq2, hq3⟩
        exact ⟨q, by rw [hoth2 i (hunarrNe i hi), hq1], hq2, hq3⟩
      · intro c2 hc2
        exact Option.noConfusion hc2
      · refine updateP_forall hboundsDec ?_
        intro q hq
        exact hq
      · rw [List.nodup_append]
        exact ⟨h.completedNodup, List.nodup_singleton _, by
          intro i hi hieq
          have : i = p.id := by simpa using hieq
          exact hnotin (this ▸ hi)⟩
      · intro i
        constructor
        · intro hi
          rcases List.mem_append.mp hi with hi1 | hi2
          · have hne : i ≠ p.id := fun hieq => hnotin (hieq ▸ hi1)
            rcases (h.completedIff i).mp hi1 with ⟨q, hq1, hq2⟩
            exact ⟨q, by rw [hoth2 i hne, hq1], hq2⟩
          · have : i = p.id := by simpa using hi2
            subst this
            exact ⟨finishP u.sim_time (decRun u.sim_time p), hp2, rfl⟩
        · rintro ⟨q, hq1, hq2⟩
          by_cases hne : i = p.id
          · subst hne
            exact List.mem_append.mpr (Or.inr (by simp))
          · rw [hoth2 i hne] at hq1
            exact List.mem_append.mpr (Or.inl ((h.completedIff i).mpr ⟨q, hq1, hq2⟩))
      · intro hm
        have hexe := hm.exeBound p hpmem (by rw [hrun]; simp)
        rw [max_eq_right (by omega : (0:ℤ) ≤ u.sim_time - p.arrival_time)] at hexe
        refine ⟨?_, ?_, ?_⟩
        · intro q hq hqf
          rcases mem_updateP_decomp hq with ⟨r1, hr1, he1⟩
          rcases mem_updateP_decomp hr1 with ⟨r, hr, he0⟩
          by_cases hrid : r.id = p.id
          · have hrp : r = p := getP_unique h.idsNodup hr hrid hp
            subst hrp
            rw [if_pos hrid] at he0
            subst he0
            rw [if_pos ((hidDec r).trans hrid)] at he1
            subst he1
            rcases Option.ne_none_iff_exists'.mp hstart with ⟨t0, ht0⟩
            refine ⟨u.sim_time + 1, t0, rfl, ht0, hm.startBound r hr t0 ht0, ?_⟩
            show r.arrival_time + r.burst_time ≤ u.sim_time + 1
            omega
          · rw [if_neg hrid] at he0
            subst he0
            rw [if_neg hrid] at he1
            subst he1
            exact hm.finSpec _ hr hqf
        · intro q hq hqf
          rcases mem_updateP_decomp hq with ⟨r1, hr1, he1⟩
          rcases mem_updateP_decomp hr1 with ⟨r, hr, he0⟩
          by_cases hrid : r.id = p.id
          · rw [if_pos hrid] at he0
            subst he0
            rw [if_pos ((hidDec r).trans hrid)] at he1
            subst he1
            exact absurd rfl hqf
          · rw [if_neg hrid] at he0
            subst he0
            rw [if_neg hrid] at he1
            subst he1
            have h3 := hm.exeBound _ hr hqf
            exact le_trans h3 (max_le_max le_rfl (by omega))
        · intro q hq t0 ht0
          rcases mem_updateP_decomp hq with ⟨r1, hr1, he1⟩
          rcases mem_updateP_decomp hr1 with ⟨r, hr, he0⟩
          by_cases hrid : r.id = p.id
          · rw [if_pos hrid] at he0
            subst he0
            rw [if_pos ((hidDec r).trans hrid)] at he1
            subst he1
            exact hm.startBound r hr t0 ht0
          · rw [if_neg hrid] at he0
            subst he0
            rw [if_neg hrid] at he1
            subst he1
            exact hm.startBound _ hr t0 ht0
      · intro hg
        show ganttSum (ganttStep u.gantt_raw_log u.prev_executed_pid p.id p.name u.sim_time)
            = u.cpu_active_time + 1
        rw [hgsum, hg]
    · rw [if_neg hfin]
      have hrem1 : 1 ≤ p.remaining_time - 1 := by omega
      by_cases halg : u.algorithm = Algorithm.RoundRobin
      · rw [if_pos halg]
        by_cases hq : u.time_quantum ≤ u.rr_quantum_counter + 1
        · rw [if_pos hq, if_pos (by omega : (0:ℤ) < p.remaining_time - 1), if_neg hcr]
          dsimp only
          have hp2 : getP (updateP (updateP u.processes p.id (decRun u.sim_time)) p.id
              toWaiting) p.id = some (toWaiting (decRun u.sim_time p)) := by
            rw [getP_updateP_self hidWait, hp1]
            rfl
          have hoth2 : ∀ i, i ≠ p.id →
              getP (updateP (updateP u.processes p.id (decRun u.sim_time)) p.id
                toWaiting) i = getP u.processes i := fun i hi => by
            rw [getP_updateP_other hidWait hi, hoth1 i hi]
          refine ⟨⟨?_, ?_, h.unarrNodup, ?_, ?_, ?_, rfl, ?_, ?_, h.completedNodup, ?_⟩,
            rfl, rfl, ?_, ?_, fun i hi => hi⟩
          · rw [updateP_map_id hidWait, hmap1]
            exact h.idsNodup
          · refine (dropFinished_sublist _ _).nodup ?_
            rw [List.nodup_append]
            exact ⟨h.readyNodup, List.nodup_singleton _, by
              intro i hi hieq
              have : i = p.id := by simpa using hieq
              exact hreadyNe i hi this⟩
          · intro i hi
            have hi0 := mem_dropFinished hi
            rcases List.mem_append.mp hi0 with hi1 | hi2
            · exact h.readyUnarr i hi1
            · have : i = p.id := by simpa using hi2
              exact this ▸ hcu
          · intro i hi
            have hi0 := mem_dropFinished hi
            rcases List.mem_append.mp hi0 with hi1 | hi2
            · rcases h.readyMem i hi1 with ⟨q, hq1, hq2, hq3, hq4⟩
              exact ⟨q, by rw [hoth2 i (hreadyNe i hi1), hq1], hq2, by omega, hq4⟩
            · have : i = p.id := by simpa using hi2
              subst this
              refine ⟨toWaiting (decRun u.sim_time p), hp2, rfl, by
                show p.arrival_time ≤ u.sim_time + 1
                omega, hrem1⟩
          · intro i hi
            rcases h.unarrMem i hi with ⟨q, hq1, hq2, hq3⟩
            exact ⟨q, by rw [hoth2 i (hunarrNe i hi), hq1], hq2, hq3⟩
          · intro c2 hc2
            exact Option.noConfusion hc2
          · refine updateP_forall hboundsDec ?_
            intro q hq
            exact hq
          · intro i
            constructor
            · intro hi
              have hne : i ≠ p.id := fun hieq => hnotin (hieq ▸ hi)
              rcases (h.completedIff i).mp hi with ⟨q, hq1, hq2⟩
              exact ⟨q, by rw [hoth2 i hne, hq1], hq2⟩
            · rintro ⟨q, hq1, hq2⟩
              by_cases hne : i = p.id
              · subst hne
                rw [hp2] at hq1
                injection hq1 with hq1
                rw [← hq1] at hq2
                cases hq2
              · rw [hoth2 i hne] at hq1
                exact (h.completedIff i).mpr ⟨q, hq1, hq2⟩
          · intro hm
            have hexe := hm.exeBound p hpmem (by rw [hrun]; simp)
            rw [max_eq_right (by omega : (0:ℤ) ≤ u.sim_time - p.arrival_time)] at hexe
            refine ⟨?_, ?_, ?_⟩
            · intro q hq hqf
              rcases mem_updateP_decomp hq with ⟨r1, hr1, he1⟩
              rcases mem_updateP_decomp hr1 with ⟨r, hr, he0⟩
              by_cases hrid : r.id = p.id
              · rw [if_pos hrid] at he0
                subst he0
                rw [if_pos ((hidDec r).trans hrid)] at he1
                subst he1
                exact PState.noConfusion (show PState.Waiting = PState.Finished from hqf)
              · rw [if_neg hrid] at he0
                subst he0
                rw [if_neg hrid] at he1
                subst he1
                exact hm.finSpec _ hr hqf
            · intro q hq hqf
              rcases mem_updateP_decomp hq with ⟨r1, hr1, he1⟩
              rcases mem_updateP_decomp hr1 with ⟨r, hr, he0⟩
              by_cases hrid : r.id = p.id
              · have hrp : r = p := getP_unique h.idsNodup hr hrid hp
                subst hrp
                rw [if_pos hrid] at he0
                subst he0
                rw [if_pos ((hidDec r).trans hrid)] at he1
                subst he1
                show r.burst_time - (r.remaining_time - 1) ≤
                    max 0 (u.sim_time + 1 - r.arrival_time)
                have h2 : u.sim_time + 1 - r.arrival_time ≤
                    max 0 (u.sim_time + 1 - r.arrival_time) := le_max_right _ _
                omega
              · rw [if_neg hrid] at he0
                subst he0
                rw [if_neg hrid] at he1
                subst he1
                have h3 := hm.exeBound _ hr hqf
                exact le_trans h3 (max_le_max le_rfl (by omega))
            · intro q hq t0 ht0
              rcases mem_updateP_decomp hq with ⟨r1, hr1, he1⟩
              rcases mem_updateP_decomp hr1 with ⟨r, hr, he0⟩
              by_cases hrid : r.id = p.id
              · rw [if_pos hrid] at he0
                subst he0
                rw [if_pos ((hidDec r).trans hrid)] at he1
                subst he1
                exact hm.startBound r hr t0 ht0
              · rw [if_neg hrid] at he0
                subst he0
                rw [if_neg hrid] at he1
                subst he1
                exact hm.startBound _ hr t0 ht0
          · intro hg
            show ganttSum (ganttStep u.gantt_raw_log u.prev_executed_pid p.id p.name
                u.sim_time) = u.cpu_active_time + 1
            rw [hgsum, hg]
        · rw [if_neg hq]
          dsimp only
          refine ⟨⟨?_, ?_, h.unarrNodup, ?_, ?_, ?_, hcur.symm, ?_, ?_, h.completedNodup, ?_⟩,
            rfl, rfl, ?_, ?_, fun i hi => hi⟩
          · rw [hmap1]
            exact h.idsNodup
          · exact (dropFinished_sublist _ _).nodup h.readyNodup
          · intro i hi
            exact h.readyUnarr i (mem_dropFinished hi)
          · intro i hi
            have hi0 := mem_dropFinished hi
            rcases h.readyMem i hi0 with ⟨q, hq1, hq2, hq3, hq4⟩
            exact ⟨q, by rw [hoth1 i (hreadyNe i hi0), hq1], hq2, by omega, hq4⟩
          · intro i hi
            rcases h.unarrMem i hi with ⟨q, hq1, hq2, hq3⟩
            exact ⟨q, by rw [hoth1 i (hunarrNe i hi), hq1], hq2, hq3⟩
          · intro c2 hc2
            rw [hcur] at hc2
            injection hc2 with hc2
            subst hc2
            refine ⟨fun hx => hcr (mem_dropFinished hx), hcu,
              decRun u.sim_time p, hp1, hrun, hrem1, by
                show p.arrival_time + 1 ≤ u.sim_time + 1
                omega, hstart, by
                show some u.sim_time ≠ none
                simp, tg, hglast⟩
          · exact hboundsDec
          · intro i
            constructor
            · intro hi
              have hne : i ≠ p.id := fun hieq => hnotin (hieq ▸ hi)
              rcases (h.completedIff i).mp hi with ⟨q, hq1, hq2⟩
              exact ⟨q, by rw [hoth1 i hne, hq1], hq2⟩
            · rintro ⟨q, hq1, hq2⟩
              by_cases hne : i = p.id
              · subst hne
                rw [hp1] at hq1
                injection hq1 with hq1
                rw [← hq1] at hq2
                rw [show (decRun u.sim_time p).state = p.state from rfl, hrun] at hq2
                cases hq2
              · rw [hoth1 i hne] at hq1
                exact (h.completedIff i).mpr ⟨q, hq1, hq2⟩
          · intro hm
            have hexe := hm.exeBound p hpmem (by rw [hrun]; simp)
            rw [max_eq_right (by omega : (0:ℤ) ≤ u.sim_time - p.arrival_time)] at hexe
            refine ⟨?_, ?_, ?_⟩
            · intro q hq hqf
              rcases mem_updateP_decomp hq with ⟨r, hr, he0⟩
              by_cases hrid : r.id = p.id
              · have hrp : r = p := getP_unique h.idsNodup hr hrid hp
                subst hrp
                rw [if_pos hrid] at he0
                subst he0
                have h3 : r.state = PState.Finished := hqf
                rw [hrun] at h3
                exact PState.noConfusion h3
              · rw [if_neg hrid] at he0
                subst he0
                exact hm.finSpec _ hr hqf
            · intro q hq hqf
              rcases mem_updateP_decomp hq with ⟨r, hr, he0⟩
              by_cases hrid : r.id = p.id
              · have hrp : r = p := getP_unique h.idsNodup hr hrid hp
                subst hrp
                rw [if_pos hrid] at he0
                subst he0
                show r.burst_time - (r.remaining_time - 1) ≤
                    max 0 (u.sim_time + 1 - r.arrival_time)
                have h2 : u.sim_time + 1 - r.arrival_time ≤
                    max 0 (u.sim_time + 1 - r.arrival_time) := le_max_right _ _
                omega
              · rw [if_neg hrid] at he0
                subst he0
                have h3 := hm.exeBound _ hr hqf
                exact le_trans h3 (max_le_max le_rfl (by omega))
            · intro q hq t0 ht0
              rcases mem_updateP_decomp hq with ⟨r, hr, he0⟩
              by_cases hrid : r.id = p.id
              · rw [if_pos hrid] at he0
                subst he0
                exact hm.startBound r hr t0 ht0
              · rw [if_neg hrid] at he0
                subst he0
                exact hm.startBound _ hr t0 ht0
          · intro hg
            show ganttSum (ganttStep u.gantt_raw_log u.prev_executed_pid p.id p.name
                u.sim_time) = u.cpu_active_time + 1
            rw [hgsum, hg]
      · rw [if_neg halg]
        dsimp only
        refine ⟨⟨?_, ?_, h.unarrNodup, ?_, ?_, ?_, hcur.symm, ?_, ?_, h.completedNodup, ?_⟩,
          rfl, rfl, ?_, ?_, fun i hi => hi⟩
        · rw [hmap1]
          exact h.idsNodup
        · exact (dropFinished_sublist _ _).nodup h.readyNodup
        · intro i hi
          exact h.readyUnarr i (mem_dropFinished hi)
        · intro i hi
          have hi0 := mem_dropFinished hi
          rcases h.readyMem i hi0 with ⟨q, hq1, hq2, hq3, hq4⟩
          exact ⟨q, by rw [hoth1 i (hreadyNe i hi0), hq1], hq2, by omega, hq4⟩
        · intro i hi
          rcases h.unarrMem i hi with ⟨q, hq1, hq2, hq3⟩
          exact ⟨q, by rw [hoth1 i (hunarrNe i hi), hq1], hq2, hq3⟩
        · intro c2 hc2
          rw [hcur] at hc2
          injection hc2 with hc2
          subst hc2
          refine ⟨fun hx => hcr (mem_dropFinished hx), hcu,
            decRun u.sim_time p, hp1, hrun, hrem1, by
              show p.arrival_time + 1 ≤ u.sim_time + 1
              omega, hstart, by
              show some u.sim_time ≠ none
              simp, tg, hglast⟩
        · exact hboundsDec
        · intro i
          constructor
          · intro hi
            have hne : i ≠ p.id := fun hieq => hnotin (hieq ▸ hi)
            rcases (h.completedIff i).mp hi with ⟨q, hq1, hq2⟩
            exact ⟨q, by rw [hoth1 i hne, hq1], hq2⟩
          · rintro ⟨q, hq1, hq2⟩
            by_cases hne : i = p.id
            · subst hne
              rw [hp1] at hq1
              injection hq1 with hq1
              rw [← hq1] at hq2
              rw [show (decRun u.sim_time p).state = p.state from rfl, hrun] at hq2
              cases hq2
            · rw [hoth1 i hne] at hq1
              exact (h.completedIff i).mpr ⟨q, hq1, hq2⟩
        · intro hm
          have hexe := hm.exeBound p hpmem (by rw [hrun]; simp)
          rw [max_eq_right (by omega : (0:ℤ) ≤ u.sim_time - p.arrival_time)] at hexe
          refine ⟨?_, ?_, ?_⟩
          · intro q hq hqf
            rcases mem_updateP_decomp hq with ⟨r, hr, he0⟩
            by_cases hrid : r.id = p.id
            · have hrp : r = p := getP_unique h.idsNodup hr hrid hp
              subst hrp
              rw [if_pos hrid] at he0
              subst he0
              have h3 : r.state = PState.Finished := hqf
              rw [hrun] at h3
              exact PState.noConfusion h3
            · rw [if_neg hrid] at he0
              subst he0
              exact hm.finSpec _ hr hqf
          · intro q hq hqf
            rcases mem_updateP_decomp hq with ⟨r, hr, he0⟩
            by_cases hrid : r.id = p.id
            · have hrp : r = p := getP_unique h.idsNodup hr hrid hp
              subst hrp
              rw [if_pos hrid] at he0
              subst he0
              show r.burst_time - (r.remaining_time - 1) ≤
                  max 0 (u.sim_time + 1 - r.arrival_time)
              have h2 : u.sim_time + 1 - r.arrival_time ≤
                  max 0 (u.sim_time + 1 - r.arrival_time) := le_max_right _ _
              omega
            · rw [if_neg hrid] at he0
              subst he0
              have h3 := hm.exeBound _ hr hqf
              exact le_trans h3 (max_le_max le_rfl (by omega))
          · intro q hq t0 ht0
            rcases mem_updateP_decomp hq with ⟨r, hr, he0⟩
            by_cases hrid : r.id = p.id
            · rw [if_pos hrid] at he0
              subst he0
              exact hm.startBound r hr t0 ht0
            · rw [if_neg hrid] at he0
              subst he0
              exact hm.startBound _ hr t0 ht0
        · intro hg
          show ganttSum (ganttStep u.gantt_raw_log u.prev_executed_pid p.id p.name
              u.sim_time) = u.cpu_active_time + 1
          rw [hgsum, hg]


/-! ### Idle-branch preservation -/

theorem invMAt_of_procs {s s' : SimState} {t : Int}
    (hp : s'.processes = s.processes) (h : InvMAt s t) : InvMAt s' t := by
  refine ⟨?_, ?_, ?_⟩ <;> rw [hp]
  · exact h.finSpec
  · exact h.exeBound
  · exact h.startBound

theorem tickIdle_pres {v : SimState} (hpre : Pre v)
    (hhead : ∀ fid rest, v.un_arrived_processes = fid :: rest →
      ∀ p, getP v.processes fid = some p → v.sim_time < p.arrival_time) :
    InvAt (tickIdle v).1 ((tickIdle v).1.sim_time + 1) ∧
    v.sim_time ≤ (tickIdle v).1.sim_time ∧
    (InvMAt v v.sim_time → InvMAt (tickIdle v).1 ((tickIdle v).1.sim_time + 1)) ∧
    (ganttSum v.gantt_raw_log = v.cpu_active_time → (tickIdle v).2 = false →
      ganttSum (tickIdle v).1.gantt_raw_log = (tickIdle v).1.cpu_active_time) ∧
    (∀ i ∈ v.completed_processes, i ∈ (tickIdle v).1.completed_processes) := by
  unfold tickIdle
  dsimp only
  by_cases hall : (v.processes.filter (fun p => p.state ≠ PState.Finished)).isEmpty = true
  · rw [if_pos hall]
    dsimp only
    refine ⟨⟨hpre.idsNodup, hpre.readyNodup, hpre.unarrNodup, hpre.readyUnarr, ?_,
      hpre.unarrMem, rfl, ?_, hpre.bounds, hpre.completedNodup, hpre.completedIff⟩,
      le_refl _, ?_, ?_, fun i hi => hi⟩
    · intro i hi
      rcases hpre.readyMem i hi with ⟨q, hq1, hq2, hq3, hq4⟩
      exact ⟨q, hq1, hq2, by omega, hq4⟩
    · intro c2 hc2
      exact Option.noConfusion hc2
    · intro hm
      exact invMAt_mono (invMAt_of_procs (s := v) rfl hm) (by omega)
    · intro hg _
      exact hg
  · rw [if_neg hall]
    have hpre3 : ∀ w : SimState, w.processes = v.processes → w.ready_queue = v.ready_queue →
        w.un_arrived_processes = v.un_arrived_processes →
        w.completed_processes = v.completed_processes →
        w.current_process_id = none → w.prev_executed_pid = none →
        v.sim_time ≤ w.sim_time → Pre w := by
      intro w h1 h2 h3 h4 h5 h6 h7
      refine ⟨by rw [h1]; exact hpre.idsNodup, by rw [h2]; exact hpre.readyNodup,
        by rw [h3]; exact hpre.unarrNodup, ?_, ?_, ?_, ?_, ?_, ?_, Or.inl ⟨h5, h6⟩⟩
      · rw [h2, h3]
        exact hpre.readyUnarr
      · rw [h1, h2]
        intro i hi
        rcases hpre.readyMem i hi with ⟨q, hq1, hq2, hq3, hq4⟩
        exact ⟨q, hq1, hq2, by omega, hq4⟩
      · rw [h1, h3]
        exact hpre.unarrMem
      · rw [h1]
        exact hpre.bounds
      · rw [h4]
        exact hpre.completedNodup
      · intro i
        rw [h1, h4]
        exact hpre.completedIff i
    rcases hrq : v.ready_queue with _ | ⟨a, as⟩
    · rw [if_pos (show ([] : List Nat).isEmpty = true from rfl)]
      rcases huq : v.un_arrived_processes with _ | ⟨fid, rest⟩
      · dsimp only
        obtain ⟨hInv, hsim, hrun2, hMet, hGan, hCm⟩ :=
          execPhase_pres (hpre3 { v with
            current_process_id := none, prev_executed_pid := none,
            ready_queue := [], un_arrived_processes := [] }
            rfl hrq.symm huq.symm rfl rfl rfl (le_refl _))
        refine ⟨by rw [hsim]; exact hInv, le_of_eq hsim.symm, ?_, ?_, fun i hi => hCm i hi⟩
        · intro hm
          rw [hsim]
          exact hMet (invMAt_of_procs (s := v) rfl hm)
        · intro hg _
          exact hGan hg
      · have hfidmem : fid ∈ v.un_arrived_processes := by
          rw [huq]
          exact List.mem_cons_self fid rest
        rcases hpre.unarrMem fid hfidmem with ⟨fp, hfp, hfpw, hfpr⟩
        have harr2 : v.sim_time < fp.arrival_time := hhead fid rest huq fp hfp
        dsimp only
        rw [hfp]
        dsimp only
        obtain ⟨hInv, hsim, hrun2, hMet, hGan, hCm⟩ :=
          execPhase_pres (hpre3 { v with
            current_process_id := none, prev_executed_pid := none,
            ready_queue := [], un_arrived_processes := fid :: rest,
            sim_time := fp.arrival_time - 1, cpu_active_time := fp.arrival_time - 1 }
            rfl hrq.symm huq.symm rfl rfl rfl (by dsimp only; omega))
        refine ⟨by rw [hsim]; exact hInv, ?_, ?_, ?_, fun i hi => hCm i hi⟩
        · rw [hsim]
          dsimp only
          omega
        · intro hm
          rw [hsim]
          refine hMet (invMAt_mono (invMAt_of_procs (s := v) rfl hm) ?_)
          dsimp only
          omega
        · intro _ hflag
          cases hflag
    · rw [if_neg (show ¬((a :: as : List Nat).isEmpty = true) by simp)]
      dsimp only
      obtain ⟨hInv, hsim, hrun2, hMet, hGan, hCm⟩ :=
        execPhase_pres (hpre3 { v with
          current_process_id := none, prev_executed_pid := none,
          ready_queue := a :: as }
          rfl hrq.symm rfl rfl rfl rfl (le_refl _))
      refine ⟨by rw [hsim]; exact hInv, le_of_eq hsim.symm, ?_, ?_, fun i hi => hCm i hi⟩
      · intro hm
        rw [hsim]
        exact hMet (invMAt_of_procs (s := v) rfl hm)
      · intro hg _
        exact hGan hg

/-! ### One-tick preservation (assembly) -/

theorem tickAux_pres {s : SimState} (h : Inv s) :
    InvAt (tickAux s).1 ((tickAux s).1.sim_time + 1) ∧
    s.sim_time ≤ (tickAux s).1.sim_time ∧
    (InvM s → InvMAt (tickAux s).1 ((tickAux s).1.sim_time + 1)) ∧
    (InvG s → (tickAux s).2 = false →
      ganttSum (tickAux s).1.gantt_raw_log = (tickAux s).1.cpu_active_time) ∧
    (∀ i ∈ s.completed_processes, i ∈ (tickAux s).1.completed_processes) := by
  unfold tickAux
  rcases hadm : releaseArrivals s.processes s.sim_time s.ready_queue s.un_arrived_processes
    with ⟨r1, u1⟩
  obtain ⟨c1, c2, c3, c4, c5, c6⟩ :=
    releaseArrivals_spec s.processes s.sim_time s.un_arrived_processes s.ready_queue r1 u1
      hadm h.readyNodup h.unarrNodup h.readyUnarr
  have hr1mem : ∀ i ∈ r1, ∃ p, getP s.processes i = some p ∧
      p.state = PState.Waiting ∧ p.arrival_time ≤ s.sim_time ∧ 1 ≤ p.remaining_time := by
    intro i hi
    rcases c4 i hi with hold | ⟨hiu, p, hp, harr, _⟩
    · exact h.readyMem i hold
    · rcases h.unarrMem i hiu with ⟨q, hq, hqw, hqr⟩
      have hqp : q = p := by
        rw [hp] at hq
        injection hq with hq2
        exact hq2.symm
      exact ⟨q, hq, hqw, by rw [hqp]; exact harr, hqr⟩
  have hu1mem : ∀ i ∈ u1, ∃ p, getP s.processes i = some p ∧
      p.state = PState.Waiting ∧ 1 ≤ p.remaining_time := fun i hi => h.unarrMem i (c5 i hi)
  dsimp only
  rcases hc : s.current_process_id with _ | cid
  · rw [show ((none : Option Nat).bind (getP s.processes)) = (none : Option Process) from rfl]
    obtain ⟨hperm, hspec⟩ := selectNext_none_spec
      { s with ready_queue := r1, un_arrived_processes := u1, current_process_id := none }
    rcases hsel : (selectNext
      { s with ready_queue := r1, un_arrived_processes := u1, current_process_id := none }
      none).2 with _ | nid
    · have hPre : Pre { s with
          ready_queue := (selectNext { s with
            ready_queue := r1
            un_arrived_processes := u1
            current_process_id := none } none).1
          un_arrived_processes := u1
          current_process_id := none } := by
        refine ⟨h.idsNodup, (hperm.nodup_iff).mpr c1, c2, ?_, ?_, hu1mem, h.bounds,
          h.completedNodup, h.completedIff, Or.inl ⟨rfl, h.prevEq.trans hc⟩⟩
        · intro i hi
          exact c3 i (hperm.mem_iff.mp hi)
        · intro i hi
          exact hr1mem i (hperm.mem_iff.mp hi)
      obtain ⟨hI, hle, hM, hG, hCm⟩ := tickIdle_pres hPre c6
      exact ⟨hI, hle, fun hm => hM (invMAt_of_procs (s := s) rfl hm), fun hg hf => hG hg hf,
        fun i hi => hCm i hi⟩
    · obtain ⟨hmem, hrr⟩ := hspec nid hsel
      have hmem1 : nid ∈ r1 := hperm.mem_iff.mp hmem
      obtain ⟨np, hnp, hnpw, hnparr, hnprem⟩ := hr1mem nid hmem1
      have hnpid : np.id = nid := getP_id hnp
      rw [show (Option.bind (some nid) (getP s.processes)) = getP s.processes nid from rfl, hnp]
      dsimp only
      rw [if_pos (show np.state ≠ PState.Finished by
        rw [hnpw]; exact fun hx => PState.noConfusion hx)]
      rw [if_pos (show (none : Option Nat) ≠ some np.id by simp)]
      dsimp only
      have hRQn : (selectNext { s with
          ready_queue := r1
          un_arrived_processes := u1
          current_process_id := none } none).1.Nodup := (hperm.nodup_iff).mpr c1
      have hcond : np.id ∈ (selectNext { s with
          ready_queue := r1
          un_arrived_processes := u1
          current_process_id := none } none).1 ∧
          (s.algorithm ≠ Algorithm.RoundRobin ∨ (selectNext { s with
            ready_queue := r1
            un_arrived_processes := u1
            current_process_id := none } none).1.head? = some np.id) := by
        refine ⟨by rw [hnpid]; exact hmem, ?_⟩
        by_cases hA : s.algorithm = Algorithm.RoundRobin
        · exact Or.inr (by rw [hnpid]; exact hrr hA)
        · exact Or.inl hA
      rw [if_pos hcond]
      have hnu1 : np.id ∉ u1 := by
        rw [hnpid]
        exact c3 nid hmem1
      have hup : getP (updateP s.processes np.id (toRunning s.sim_time)) np.id
          = some (toRunning s.sim_time np) := by
        rw [getP_updateP_self (f := toRunning s.sim_time) (fun x => rfl), hnpid, hnp]
        rfl
      have hPre2 : Pre { s with
          processes := updateP s.processes np.id (toRunning s.sim_time)
          ready_queue := (selectNext { s with
            ready_queue := r1
            un_arrived_processes := u1
            current_process_id := none } none).1.erase np.id
          un_arrived_processes := u1
          current_process_id := some np.id
          rr_quantum_counter := 0
          prev_executed_pid := none } := by
        refine ⟨?_, hRQn.erase np.id, c2, ?_, ?_, ?_, ?_, h.completedNodup, ?_, ?_⟩
        · rw [updateP_map_id (f := toRunning s.sim_time) (fun x => rfl)]
          exact h.idsNodup
        · intro i hi
          exact c3 i (hperm.mem_iff.mp (List.mem_of_mem_erase hi))
        · intro i hi
          have hine : i ≠ np.id := by
            intro he
            exact (hRQn.not_mem_erase) (he ▸ hi)
          obtain ⟨q, hq, hqw, hqa, hqr⟩ := hr1mem i (hperm.mem_iff.mp (List.mem_of_mem_erase hi))
          exact ⟨q, by rw [getP_updateP_other (f := toRunning s.sim_time) (fun x => rfl) hine]; exact hq, hqw, hqa, hqr⟩
        · intro i hi
          have hine : i ≠ np.id := by
            intro he
            exact hnu1 (he ▸ hi)
          obtain ⟨q, hq, hqw, hqr⟩ := hu1mem i hi
          exact ⟨q, by rw [getP_updateP_other (f := toRunning s.sim_time) (fun x => rfl) hine]; exact hq, hqw, hqr⟩
        · exact updateP_forall h.bounds (fun q hq => hq)
        · intro i
          by_cases hie : i = np.id
          · subst hie
            constructor
            · intro hicomp
              rcases (h.completedIff np.id).mp hicomp with ⟨q, hq, hqfin⟩
              rw [hnpid, hnp] at hq
              injection hq with hq2
              rw [← hq2, hnpw] at hqfin
              cases hqfin
            · rintro ⟨q, hq, hqfin⟩
              rw [hup] at hq
              injection hq with hq2
              rw [← hq2] at hqfin
              exact absurd hqfin (fun hx => PState.noConfusion hx)
          · rw [getP_updateP_other (f := toRunning s.sim_time) (fun x => rfl) hie]
            exact h.completedIff i
        · refine Or.inr ⟨np.id, toRunning s.sim_time np, rfl, hRQn.not_mem_erase, hnu1,
            hup, rfl, hnprem, hnparr, ?_, Or.inl rfl⟩
          cases hs0 : np.start_execution_time <;> simp [toRunning, hs0]
      obtain ⟨hI, hsim, hrunn, hM, hG, hCm⟩ := execPhase_pres hPre2
      refine ⟨by rw [hsim]; exact hI, le_of_eq hsim.symm, ?_, ?_, fun i hi => hCm i hi⟩
      · intro hm
        rw [hsim]
        refine hM ⟨?_, ?_, ?_⟩
        · intro q hq hqf
          rcases mem_updateP_decomp hq with ⟨r, hr, he0⟩
          by_cases hrid : r.id = np.id
          · rw [if_pos hrid] at he0
            subst he0
            exact PState.noConfusion (show PState.Running = PState.Finished from hqf)
          · rw [if_neg hrid] at he0
            subst he0
            exact hm.finSpec _ hr hqf
        · intro q hq hqf
          rcases mem_updateP_decomp hq with ⟨r, hr, he0⟩
          by_cases hrid : r.id = np.id
          · have hrp : r = np := getP_unique h.idsNodup hr (hrid.trans hnpid) hnp
            subst hrp
            rw [if_pos hrid] at he0
            subst he0
            show r.burst_time - r.remaining_time ≤ max 0 (s.sim_time - r.arrival_time)
            exact hm.exeBound r hr (by rw [hnpw]; exact fun hx => PState.noConfusion hx)
          · rw [if_neg hrid] at he0
            subst he0
            exact hm.exeBound _ hr hqf
        · intro q hq t0 ht0
          rcases mem_updateP_decomp hq with ⟨r, hr, he0⟩
          by_cases hrid : r.id = np.id
          · have hrp : r = np := getP_unique h.idsNodup hr (hrid.trans hnpid) hnp
            subst hrp
            rw [if_pos hrid] at he0
            subst he0
            rcases hs0 : r.start_execution_time with _ | t1
            · have he2 : (toRunning s.sim_time r).start_execution_time = some s.sim_time := by
                simp [toRunning, hs0]
              rw [he2] at ht0
              injection ht0 with ht0e
              show r.arrival_time ≤ t0
              rw [← ht0e]
              exact hnparr
            · have he2 : (toRunning s.sim_time r).start_execution_time = some t1 := by
                simp [toRunning, hs0]
              rw [he2] at ht0
              injection ht0 with ht0e
              show r.arrival_time ≤ t0
              rw [← ht0e]
              exact hm.startBound r hr t1 hs0
          · rw [if_neg hrid] at he0
            subst he0
            exact hm.startBound _ hr t0 ht0
      · intro hg _
        exact hG hg

  · obtain ⟨hcr, hcu, p, hp, hrun, hrem, harr1, hstart, hlastrun, t0, hgl⟩ :=
      h.currentSpec cid hc
    have hpid : p.id = cid := getP_id hp
    rw [show (Option.bind (some cid) (getP s.processes)) = getP s.processes cid from rfl, hp]
    obtain ⟨hsel2, hperm2⟩ := selectNext_continue { s with
      ready_queue := r1
      un_arrived_processes := u1
      current_process_id := some cid } hrun hrem
    rw [hsel2]
    rw [show (Option.bind (some p.id) (getP s.processes)) = getP s.processes p.id from rfl,
      hpid, hp]
    dsimp only
    rw [if_pos (show p.state ≠ PState.Finished by
      rw [hrun]; exact fun hx => PState.noConfusion hx)]
    rw [if_neg (show ¬(some cid ≠ some p.id) from fun hne => hne (by rw [hpid]))]
    have hPre2 : Pre { s with
        ready_queue := (selectNext { s with
          ready_queue := r1
          un_arrived_processes := u1
          current_process_id := some cid } (some p)).1
        un_arrived_processes := u1
        current_process_id := some cid } := by
      refine ⟨h.idsNodup, (hperm2.nodup_iff).mpr c1, c2, ?_, ?_, hu1mem, h.bounds,
        h.completedNodup, h.completedIff, ?_⟩
      · intro i hi
        exact c3 i (hperm2.mem_iff.mp hi)
      · intro i hi
        exact hr1mem i (hperm2.mem_iff.mp hi)
      · refine Or.inr ⟨cid, p, rfl, ?_, ?_, hp, hrun, hrem, by
          show p.arrival_time ≤ s.sim_time
          omega, hstart, Or.inr ⟨h.prevEq.trans hc, t0, hgl⟩⟩
        · intro hin
          rcases c4 cid (hperm2.mem_iff.mp hin) with h1 | ⟨h1, _⟩
          · exact hcr h1
          · exact hcu h1
        · intro hin
          exact hcu (c5 cid hin)
    obtain ⟨hI, hsim, hrunn, hM, hG, hCm⟩ := execPhase_pres hPre2
    refine ⟨by rw [hsim]; exact hI, le_of_eq hsim.symm, ?_, ?_, fun i hi => hCm i hi⟩
    · intro hm
      rw [hsim]
      exact hM (invMAt_of_procs (s := s) rfl hm)
    · intro hg _
      exact hG hg


/-! ### The driver, Add Task, Start and Kill handlers preserve the invariants -/

theorem drive_pres {s : SimState} (h : Inv s) :
    Inv (drive s) ∧ (InvM s → InvM (drive s)) ∧
    (InvG s → (tickAux s).2 = false → InvG (drive s)) ∧
    (∀ i ∈ s.completed_processes, i ∈ (drive s).completed_processes) := by
  obtain ⟨hI, _, hM, hG, hCm⟩ := tickAux_pres h
  refine ⟨?_, ?_, ?_, ?_⟩
  · exact invAt_set_sim hI
  · intro hm
    exact invMAt_set_sim (hM hm)
  · intro hg hf
    exact hG hg hf
  · exact hCm

theorem getP_append_fresh {procs : List Process} {x : Process}
    (hfresh : ∀ p ∈ procs, p.id ≠ x.id) : getP (procs ++ [x]) x.id = some x := by
  induction procs with
  | nil =>
    unfold getP
    exact List.find?_cons_of_pos _ (by simp)
  | cons q rest ih =>
    have h1 : ¬((fun p => p.id == x.id) q) = true := by
      simp only [beq_iff_eq]
      exact hfresh q (List.mem_cons_self q rest)
    unfold getP at ih ⊢
    rw [List.cons_append]
    have e1 : List.find? (fun p => p.id == x.id) (q :: (rest ++ [x])) =
        List.find? (fun p => p.id == x.id) (rest ++ [x]) :=
      List.find?_cons_of_neg _ h1
    rw [e1]
    exact ih (fun p hp => hfresh p (List.mem_cons_of_mem q hp))

theorem getP_append_cases {procs : List Process} {x : Process} {i : Nat} {q : Process}
    (h : getP (procs ++ [x]) i = some q) : getP procs i = some q ∨ q = x := by
  unfold getP at h ⊢
  rw [List.find?_append] at h
  cases hfo : List.find? (fun p => p.id == i) procs with
  | some q2 =>
    rw [hfo] at h
    injection h with h2
    exact Or.inl (by rw [h2])
  | none =>
    rw [hfo] at h
    simp only [Option.none_or] at h
    by_cases hxi : ((fun p => p.id == i) x) = true
    · have e1 : List.find? (fun p => p.id == i) [x] = some x :=
        List.find?_cons_of_pos _ hxi
      rw [e1] at h
      injection h with h2
      exact Or.inr h2.symm
    · have e1 : List.find? (fun p => p.id == i) [x] =
          List.find? (fun p => p.id == i) ([] : List Process) :=
        List.find?_cons_of_neg _ hxi
      rw [e1] at h
      cases h

theorem add_pres {s : SimState} (h : Inv s) (x : Process)
    (hfresh : ∀ p ∈ s.processes, p.id ≠ x.id)
    (hxw : x.state = PState.Waiting) (hxa : 0 ≤ x.arrival_time)
    (hxb : 1 ≤ x.burst_time) (hxr : x.remaining_time = x.burst_time)
    (hxs : x.start_execution_time = none) :
    Inv { s with processes := s.processes ++ [x] } ∧
    (InvM s → InvM { s with processes := s.processes ++ [x] }) ∧
    (InvG s → InvG { s with processes := s.processes ++ [x] }) ∧
    (∀ i ∈ s.completed_processes,
      i ∈ ({ s with processes := s.processes ++ [x] } : SimState).completed_processes) := by
  have hidnotin : x.id ∉ s.processes.map Process.id := by
    intro hin
    rcases List.mem_map.mp hin with ⟨p, hp, he⟩
    exact hfresh p hp he
  refine ⟨?_, ?_, ?_, fun i hi => hi⟩
  · refine ⟨?_, h.readyNodup, h.unarrNodup, h.readyUnarr, ?_, ?_, h.prevEq, ?_, ?_,
      h.completedNodup, ?_⟩
    · rw [List.map_append]
      refine List.nodup_append.mpr ⟨h.idsNodup, by simp, ?_⟩
      intro a ha1 ha2
      have hax : a = x.id := by simpa using ha2
      exact hidnotin (hax ▸ ha1)
    · intro i hi
      obtain ⟨p, hp, h1, h2, h3⟩ := h.readyMem i hi
      exact ⟨p, getP_append_left hp, h1, h2, h3⟩
    · intro i hi
      obtain ⟨p, hp, h1, h2⟩ := h.unarrMem i hi
      exact ⟨p, getP_append_left hp, h1, h2⟩
    · intro cid hcid
      obtain ⟨hnr, hnu, p, hp, hrest⟩ := h.currentSpec cid hcid
      exact ⟨hnr, hnu, p, getP_append_left hp, hrest⟩
    · intro q hq
      rcases List.mem_append.mp hq with h1 | h2
      · exact h.bounds q h1
      · have hqx : q = x := by simpa using h2
        subst hqx
        exact ⟨hxb, hxa, le_of_eq hxr⟩
    · intro i
      rw [h.completedIff i]
      constructor
      · rintro ⟨p, hp, hpf⟩
        exact ⟨p, getP_append_left hp, hpf⟩
      · rintro ⟨p, hp, hpf⟩
        rcases getP_append_cases hp with h1 | h1
        · exact ⟨p, h1, hpf⟩
        · subst h1
          rw [hxw] at hpf
          exact PState.noConfusion hpf
  · intro hm
    refine ⟨?_, ?_, ?_⟩
    · intro q hq hqf
      rcases List.mem_append.mp hq with h1 | h2
      · exact hm.finSpec q h1 hqf
      · have hqx : q = x := by simpa using h2
        subst hqx
        rw [hxw] at hqf
        exact PState.noConfusion hqf
    · intro q hq hqf
      rcases List.mem_append.mp hq with h1 | h2
      · exact hm.exeBound q h1 hqf
      · have hqx : q = x := by simpa using h2
        subst hqx
        have h0 : q.burst_time - q.remaining_time = 0 := by omega
        rw [h0]
        exact le_max_left _ _
    · intro q hq t0 ht0
      rcases List.mem_append.mp hq with h1 | h2
      · exact hm.startBound q h1 t0 ht0
      · have hqx : q = x := by simpa using h2
        subst hqx
        rw [hxs] at ht0
        exact Option.noConfusion ht0
  · intro hg
    exact hg

theorem invAt_set_running {s : SimState} {t : Int} {b : Bool} (h : InvAt s t) :
    InvAt { s with running := b } t := by
  cases h
  constructor <;> assumption

theorem start_pres {ps : List Process} {alg : Algorithm} {q0 : Int}
    (hne : ps ≠ []) (hnd : (ps.map Process.id).Nodup)
    (hb : ∀ p ∈ ps, 0 ≤ p.arrival_time ∧ 1 ≤ p.burst_time) :
    Inv (startRun (mkState ps) alg q0) ∧ InvM (startRun (mkState ps) alg q0) ∧
    InvG (startRun (mkState ps) alg q0) := by
  have hmapid : (ps.map resetP).map Process.id = ps.map Process.id := by
    rw [List.map_map]
    exact List.map_congr_left (fun p _ => rfl)
  have hnd' : ((ps.map resetP).map Process.id).Nodup := by
    rw [hmapid]
    exact hnd
  unfold startRun
  rw [if_neg (show ¬(mkState ps).processes.isEmpty = true by
    simp [mkState, List.isEmpty_iff, hne])]
  dsimp only
  refine ⟨?_, ?_, ?_⟩
  · refine ⟨hnd', List.nodup_nil, ?_, ?_, ?_, ?_, rfl, ?_, ?_, List.nodup_nil, ?_⟩
    · exact ((sortB_perm _ _).map Process.id).nodup_iff.mpr hnd'
    · intro i hi
      cases hi
    · intro i hi
      cases hi
    · intro i hi
      rcases List.mem_map.mp hi with ⟨p, hp, hpi⟩
      have hp2 : p ∈ ps.map resetP := mem_sortB.mp hp
      rcases List.mem_map.mp hp2 with ⟨y, hy, hyp⟩
      refine ⟨p, hpi ▸ getP_of_mem hnd' hp2, ?_, ?_⟩
      · rw [← hyp]
        rfl
      · rw [← hyp]
        show 1 ≤ y.burst_time
        exact (hb y hy).2
    · intro cid hcid
      exact Option.noConfusion hcid
    · intro q hq
      rcases List.mem_map.mp hq with ⟨y, hy, hyq⟩
      rw [← hyq]
      exact ⟨(hb y hy).2, (hb y hy).1, le_refl _⟩
    · intro i
      constructor
      · intro hi
        cases hi
      · rintro ⟨p, hp, hpf⟩
        have hp2 := getP_mem_store hp
        rcases List.mem_map.mp hp2 with ⟨y, _, hyp⟩
        rw [← hyp] at hpf
        exact PState.noConfusion hpf
  · refine ⟨?_, ?_, ?_⟩
    · intro q hq hqf
      rcases List.mem_map.mp hq with ⟨y, _, hyq⟩
      rw [← hyq] at hqf
      exact absurd hqf (by exact fun hf => PState.noConfusion hf)
    · intro q hq _
      rcases List.mem_map.mp hq with ⟨y, _, hyq⟩
      rw [← hyq]
      have h0 : (resetP y).burst_time - (resetP y).remaining_time = 0 := by
        show y.burst_time - y.burst_time = 0
        omega
      rw [h0]
      exact le_max_left _ _
    · intro q hq t0 ht0
      rcases List.mem_map.mp hq with ⟨y, _, hyq⟩
      rw [← hyq] at ht0
      exact Option.noConfusion ht0
  · show ganttSum [] = (0 : Int)
    rfl


/-! ### The Kill handler preserves the invariants -/

theorem kill_readyFacts {l : List Nat} {pid : Nat} {i : Nat}
    (hi : i ∈ l.filter (fun q => q ≠ pid)) : i ∈ l ∧ i ≠ pid := by
  rw [List.mem_filter] at hi
  exact ⟨hi.1, by simpa using hi.2⟩

theorem kill_idsNodup {s : SimState} (h : Inv s) (pid : Nat) :
    ((updateP s.processes pid (killP s.sim_time)).map Process.id).Nodup := by
  rw [@updateP_map_id s.processes pid (killP s.sim_time) (fun x => rfl)]
  exact h.idsNodup

theorem kill_queueMem {s : SimState} (h : Inv s) {pid : Nat} :
    (∀ i ∈ s.ready_queue.filter (fun q => q ≠ pid),
      ∃ q2, getP (updateP s.processes pid (killP s.sim_time)) i = some q2 ∧
        q2.state = PState.Waiting ∧ q2.arrival_time ≤ s.sim_time ∧
        1 ≤ q2.remaining_time) ∧
    (∀ i ∈ s.un_arrived_processes.filter (fun q => q ≠ pid),
      ∃ q2, getP (updateP s.processes pid (killP s.sim_time)) i = some q2 ∧
        q2.state = PState.Waiting ∧ 1 ≤ q2.remaining_time) := by
  constructor
  · intro i hi
    obtain ⟨hi1, hi2⟩ := kill_readyFacts hi
    obtain ⟨q, hq, h1, h2, h3⟩ := h.readyMem i hi1
    exact ⟨q, (@getP_updateP_other s.processes pid i (killP s.sim_time) (fun x => rfl)
      hi2).trans hq, h1, h2, h3⟩
  · intro i hi
    obtain ⟨hi1, hi2⟩ := kill_readyFacts hi
    obtain ⟨q, hq, h1, h2⟩ := h.unarrMem i hi1
    exact ⟨q, (@getP_updateP_other s.processes pid i (killP s.sim_time) (fun x => rfl)
      hi2).trans hq, h1, h2⟩

theorem kill_bounds {s : SimState} (h : Inv s) (pid : Nat) :
    ∀ q ∈ updateP s.processes pid (killP s.sim_time),
      1 ≤ q.burst_time ∧ 0 ≤ q.arrival_time ∧ q.remaining_time ≤ q.burst_time := by
  refine updateP_forall h.bounds ?_
  intro q hq
  refine ⟨hq.1, hq.2.1, ?_⟩
  show (0 : Int) ≤ q.burst_time
  omega

theorem kill_completedNodup {s : SimState} (h : Inv s) {pid : Nat}
    (hnotin : pid ∉ s.completed_processes) :
    (s.completed_processes ++ [pid]).Nodup := by
  refine List.nodup_append.mpr ⟨h.completedNodup, by simp, ?_⟩
  intro a ha1 ha2
  have hax : a = pid := by simpa using ha2
  exact hnotin (hax ▸ ha1)

theorem kill_completedIff {s : SimState} (h : Inv s) {pid : Nat} {p : Process}
    (hg0 : getP s.processes pid = some p) :
    ∀ i, i ∈ s.completed_processes ++ [pid] ↔
      ∃ q, getP (updateP s.processes pid (killP s.sim_time)) i = some q ∧
        q.state = PState.Finished := by
  intro i
  by_cases hip : i = pid
  · constructor
    · intro _
      rw [hip]
      refine ⟨killP s.sim_time p, ?_, rfl⟩
      have e := @getP_updateP_self s.processes pid (killP s.sim_time) (fun x => rfl)
      rw [e, hg0]
      rfl
    · intro _
      rw [hip]
      exact List.mem_append_right _ (by simp)
  · constructor
    · intro hi
      rcases List.mem_append.mp hi with h1 | h2
      · obtain ⟨q, hq, hqf⟩ := (h.completedIff i).mp h1
        exact ⟨q, (@getP_updateP_other s.processes pid i (killP s.sim_time) (fun x => rfl)
          hip).trans hq, hqf⟩
      · exact absurd (by simpa using h2) hip
    · rintro ⟨q, hq, hqf⟩
      rw [@getP_updateP_other s.processes pid i (killP s.sim_time) (fun x => rfl) hip] at hq
      exact List.mem_append_left _ ((h.completedIff i).mpr ⟨q, hq, hqf⟩)

theorem stop_pres {w : SimState} {c : Prop} [inst : Decidable c] (hI : Inv w) :
    Inv (if c then { w with running := false } else w) ∧
    (InvG w → InvG (if c then { w with running := false } else w)) ∧
    (∀ i ∈ w.completed_processes,
      i ∈ (if c then { w with running := false } else w).completed_processes) := by
  by_cases hc : c
  · rw [if_pos hc]
    exact ⟨invAt_set_running hI, fun hg => hg, fun i hi => hi⟩
  · rw [if_neg hc]
    exact ⟨hI, fun hg => hg, fun i hi => hi⟩

theorem kill_pres {s : SimState} (h : Inv s) (pid : Nat) :
    Inv (applyKill s pid) ∧ (InvG s → InvG (applyKill s pid)) ∧
    (∀ i ∈ s.completed_processes, i ∈ (applyKill s pid).completed_processes) := by
  unfold applyKill
  cases hg0 : getP s.processes pid with
  | none =>
    exact ⟨h, fun hg => hg, fun i hi => hi⟩
  | some p =>
    dsimp only
    by_cases hfin : p.state = PState.Finished
    · -- the target is already Finished: only the queue filters and the
      -- final running check execute
      rw [if_neg (not_not_intro hfin)]
      have hcne : ¬s.current_process_id = some pid := by
        intro hcur
        obtain ⟨_, _, q, hq, hqrun, _⟩ := h.currentSpec pid hcur
        rw [hg0] at hq
        injection hq with hq2
        rw [← hq2] at hqrun
        rw [hfin] at hqrun
        exact PState.noConfusion hqrun
      rw [if_neg hcne]
      have hI3 : InvAt { s with
          ready_queue := s.ready_queue.filter (fun q => q ≠ pid)
          un_arrived_processes := s.un_arrived_processes.filter (fun q => q ≠ pid) }
          s.sim_time := by
        refine ⟨h.idsNodup, h.readyNodup.filter _, h.unarrNodup.filter _, ?_, ?_, ?_,
          h.prevEq, ?_, h.bounds, h.completedNodup, h.completedIff⟩
        · intro i hi hiu
          exact h.readyUnarr i (List.mem_of_mem_filter hi) (List.mem_of_mem_filter hiu)
        · intro i hi
          exact h.readyMem i (List.mem_of_mem_filter hi)
        · intro i hi
          exact h.unarrMem i (List.mem_of_mem_filter hi)
        · intro cid hcid
          obtain ⟨hc1, hc2, hc3⟩ := h.currentSpec cid hcid
          exact ⟨fun hmem => hc1 (List.mem_of_mem_filter hmem),
            fun hmem => hc2 (List.mem_of_mem_filter hmem), hc3⟩
      obtain ⟨a1, a2, a3⟩ := stop_pres
        (c := s.completed_processes.length = s.processes.length) hI3
      exact ⟨a1, fun hg => a2 hg, fun i hi => a3 i hi⟩
    · rw [if_pos hfin]
      have hnotin : pid ∉ s.completed_processes := by
        intro hmem
        obtain ⟨q, hq, hqf⟩ := (h.completedIff pid).mp hmem
        rw [hg0] at hq
        injection hq with hq2
        rw [← hq2] at hqf
        exact hfin hqf
      rw [if_neg hnotin]
      by_cases hcur : s.current_process_id = some pid
      · -- the running process is killed: the last Gantt segment is rewritten
        -- in place and the CPU is vacated
        obtain ⟨_, _, q, hq, hqrun, hqrem, hqarr, hqstart, hqlast, t0, hglast⟩ :=
          h.currentSpec pid hcur
        rw [hg0] at hq
        injection hq with hq2
        subst hq2
        have hcond : s.current_process_id = some pid ∧ p.start_execution_time ≠ none ∧
            p.last_run_time ≠ none := ⟨hcur, hqstart, hqlast⟩
        rw [if_pos hcond]
        rw [hglast]
        dsimp only
        rw [if_pos (show p.name = p.name from rfl)]
        rw [if_pos hcur]
        have hI3 : InvAt { s with
            processes := updateP s.processes pid (killP s.sim_time)
            gantt_raw_log := s.gantt_raw_log.dropLast ++ [(p.name, t0, s.sim_time)]
            completed_processes := s.completed_processes ++ [pid]
            ready_queue := s.ready_queue.filter (fun q => q ≠ pid)
            un_arrived_processes := s.un_arrived_processes.filter (fun q => q ≠ pid)
            current_process_id := none
            rr_quantum_counter := 0
            prev_executed_pid := none } s.sim_time := by
          refine ⟨kill_idsNodup h pid, h.readyNodup.filter _, h.unarrNodup.filter _, ?_,
              (kill_queueMem h).1, (kill_queueMem h).2, rfl, ?_, kill_bounds h pid,
              kill_completedNodup h hnotin, kill_completedIff h hg0⟩
          · intro i hi hiu
            exact h.readyUnarr i (List.mem_of_mem_filter hi) (List.mem_of_mem_filter hiu)
          · intro cid hcid
            exact Option.noConfusion hcid
        have hG3 : InvG s → ganttSum (s.gantt_raw_log.dropLast ++
            [(p.name, t0, s.sim_time)]) = s.cpu_active_time := by
          intro hg
          rw [← gantt_last_decomp hglast]
          exact hg
        obtain ⟨a1, a2, a3⟩ := stop_pres
          (c := (s.completed_processes ++ [pid]).length =
            (updateP s.processes pid (killP s.sim_time)).length) hI3
        exact ⟨a1, fun hg => a2 (hG3 hg), fun i hi => a3 i (List.mem_append_left _ hi)⟩
      · rw [if_neg (show ¬(s.current_process_id = some pid ∧
            p.start_execution_time ≠ none ∧ p.last_run_time ≠ none) from
            fun hand => hcur hand.1)]
        rw [if_neg hcur]
        have hI3 : InvAt { s with
            processes := updateP s.processes pid (killP s.sim_time)
            completed_processes := s.completed_processes ++ [pid]
            ready_queue := s.ready_queue.filter (fun q => q ≠ pid)
            un_arrived_processes := s.un_arrived_processes.filter (fun q => q ≠ pid) }
            s.sim_time := by
          refine ⟨kill_idsNodup h pid, h.readyNodup.filter _, h.unarrNodup.filter _, ?_,
              (kill_queueMem h).1, (kill_queueMem h).2, h.prevEq, ?_, kill_bounds h pid,
              kill_completedNodup h hnotin, kill_completedIff h hg0⟩
          · intro i hi hiu
            exact h.readyUnarr i (List.mem_of_mem_filter hi) (List.mem_of_mem_filter hiu)
          · intro cid hcid
            have hcp : cid ≠ pid := fun he => hcur (he ▸ hcid)
            obtain ⟨hc1, hc2, q, hq, hrest⟩ := h.currentSpec cid hcid
            exact ⟨fun hmem => hc1 (List.mem_of_mem_filter hmem),
              fun hmem => hc2 (List.mem_of_mem_filter hmem), q,
              (@getP_updateP_other s.processes pid cid (killP s.sim_time) (fun x => rfl)
                hcp).trans hq, hrest⟩
        obtain ⟨a1, a2, a3⟩ := stop_pres
          (c := (s.completed_processes ++ [pid]).length =
            (updateP s.processes pid (killP s.sim_time)).length) hI3
        exact ⟨a1, fun hg => a2 hg, fun i hi => a3 i (List.mem_append_left _ hi)⟩


/-! ### Reachable states of a session

`Reach k j s` holds of every `st.session_state` obtainable in `tm_page` by
pressing Start on a well-formed non-empty task list and then stepping the
auto-run loop, where `k` permits Kill clicks and `j` permits the idle
fast-forward jump of the tick engine. -/

inductive Reach (k j : Bool) : SimState → Prop where
  | start (ps : List Process) (alg : Algorithm) (q0 : Int) (hne : ps ≠ [])
      (hnd : (ps.map Process.id).Nodup)
      (hb : ∀ p ∈ ps, 0 ≤ p.arrival_time ∧ 1 ≤ p.burst_time) :
      Reach k j (startRun (mkState ps) alg q0)
  | tick {s : SimState} (h : Reach k j s)
      (hj : j = true ∨ (tickAux s).2 = false) :
      Reach k j (drive s)
  | kill {s : SimState} (h : Reach k j s) (hk : k = true) (pid : Nat) :
      Reach k j (applyKill s pid)
  | add {s : SimState} (h : Reach k j s) (x : Process)
      (hfresh : ∀ p ∈ s.processes, p.id ≠ x.id)
      (hxw : x.state = PState.Waiting) (hxa : 0 ≤ x.arrival_time)
      (hxb : 1 ≤ x.burst_time) (hxr : x.remaining_time = x.burst_time)
      (hxs : x.start_execution_time = none) :
      Reach k j { s with processes := s.processes ++ [x] }

theorem reach_inv {k j : Bool} {s : SimState} (h : Reach k j s) : Inv s := by
  induction h with
  | start ps alg q0 hne hnd hb => exact (start_pres hne hnd hb).1
  | tick h hj ih => exact (drive_pres ih).1
  | kill h hk pid ih => exact (kill_pres ih pid).1
  | add h x hfresh hxw hxa hxb hxr hxs ih =>
    exact (add_pres ih x hfresh hxw hxa hxb hxr hxs).1

theorem reach_invM {j : Bool} {s : SimState} (h : Reach false j s) : InvM s := by
  induction h with
  | start ps alg q0 hne hnd hb => exact (start_pres hne hnd hb).2.1
  | tick h hj ih => exact (drive_pres (reach_inv h)).2.1 ih
  | kill h hk pid ih => exact Bool.noConfusion hk
  | add h x hfresh hxw hxa hxb hxr hxs ih =>
    exact (add_pres (reach_inv h) x hfresh hxw hxa hxb hxr hxs).2.1 ih

theorem reach_invG {k : Bool} {s : SimState} (h : Reach k false s) : InvG s := by
  induction h with
  | start ps alg q0 hne hnd hb => exact (start_pres hne hnd hb).2.2
  | tick h hj ih =>
    rcases hj with hj | hj
    · exact Bool.noConfusion hj
    · exact (drive_pres (reach_inv h)).2.2.1 ih hj
  | kill h hk pid ih => exact (kill_pres (reach_inv h) pid).2.1 ih
  | add h x hfresh hxw hxa hxb hxr hxs ih =>
    exact (add_pres (reach_inv h) x hfresh hxw hxa hxb hxr hxs).2.2.1 ih

/-- Any interleaving of engine ticks, Kill clicks and Add Task submissions
leading from one session state to a later one. -/
inductive Steps : SimState → SimState → Prop where
  | refl (s : SimState) : Steps s s
  | tick {s t : SimState} (h : Steps s t) : Steps s (drive t)
  | kill {s t : SimState} (h : Steps s t) (pid : Nat) : Steps s (applyKill t pid)
  | add {s t : SimState} (h : Steps s t) (x : Process)
      (hfresh : ∀ p ∈ t.processes, p.id ≠ x.id)
      (hxw : x.state = PState.Waiting) (hxa : 0 ≤ x.arrival_time)
      (hxb : 1 ≤ x.burst_time) (hxr : x.remaining_time = x.burst_time)
      (hxs : x.start_execution_time = none) :
      Steps s { t with processes := t.processes ++ [x] }

theorem steps_inv {s t : SimState} (hst : Steps s t) (hi : Inv s) : Inv t := by
  induction hst with
  | refl => exact hi
  | tick h ih => exact (drive_pres ih).1
  | kill h pid ih => exact (kill_pres ih pid).1
  | add h x hfresh hxw hxa hxb hxr hxs ih =>
    exact (add_pres ih x hfresh hxw hxa hxb hxr hxs).1

theorem steps_completed {s t : SimState} (hst : Steps s t) (hi : Inv s) :
    ∀ i ∈ s.completed_processes, i ∈ t.completed_processes := by
  induction hst with
  | refl => exact fun i hi2 => hi2
  | tick h ih =>
    exact fun i hi2 => (drive_pres (steps_inv h hi)).2.2.2 i (ih i hi2)
  | kill h pid ih =>
    exact fun i hi2 => (kill_pres (steps_inv h hi) pid).2.2 i (ih i hi2)
  | add h x hfresh hxw hxa hxb hxr hxs ih =>
    exact fun i hi2 =>
      (add_pres (steps_inv h hi) x hfresh hxw hxa hxb hxr hxs).2.2.2 i (ih i hi2)

/-- Once a process id is in `completed_processes`, every later session state
keeps it Finished and schedules it nowhere. -/
theorem finished_stays {s t : SimState} (hst : Steps s t) (hi : Inv s) {pid : Nat}
    (hc : pid ∈ s.completed_processes) :
    (∃ q, getP t.processes pid = some q ∧ q.state = PState.Finished) ∧
    t.current_process_id ≠ some pid ∧ pid ∉ t.ready_queue ∧
    pid ∉ t.un_arrived_processes := by
  have hit := steps_inv hst hi
  have hct := steps_completed hst hi pid hc
  obtain ⟨q, hq, hqf⟩ := (hit.completedIff pid).mp hct
  refine ⟨⟨q, hq, hqf⟩, ?_, ?_, ?_⟩
  · intro hcur
    obtain ⟨_, _, q2, hq2, hq2run, _⟩ := hit.currentSpec pid hcur
    rw [hq] at hq2
    injection hq2 with h2
    rw [← h2] at hq2run
    rw [hqf] at hq2run
    exact PState.noConfusion hq2run
  · intro hrdy
    obtain ⟨q2, hq2, hq2w, _⟩ := hit.readyMem pid hrdy
    rw [hq] at hq2
    injection hq2 with h2
    rw [← h2] at hq2w
    rw [hqf] at hq2w
    exact PState.noConfusion hq2w
  · intro hun
    obtain ⟨q2, hq2, hq2w, _⟩ := hit.unarrMem pid hun
    rw [hq] at hq2
    injection hq2 with h2
    rw [← h2] at hq2w
    rw [hqf] at hq2w
    exact PState.noConfusion hq2w


/-! ### Further handler-level facts used by the claim theorems -/

theorem selectNext_ready_nil {s : SimState} (h : s.ready_queue = []) :
    selectNext s none = (s.ready_queue, none) := by
  unfold selectNext
  cases halg : s.algorithm
  all_goals rw [h]
  all_goals rfl

theorem stop_running {w : SimState} {c : Prop} [inst : Decidable c] (hc : c) :
    (if c then { w with running := false } else w).running = false := by
  rw [if_pos hc]

theorem kill_lastDone {s : SimState} (h : Inv s) {pid : Nat} {p : Process}
    (hg0 : getP s.processes pid = some p) (hnotin : pid ∉ s.completed_processes)
    (hall : ∀ q ∈ s.processes, q.id ≠ pid → q.state = PState.Finished) :
    (s.completed_processes ++ [pid]).length =
      (updateP s.processes pid (killP s.sim_time)).length := by
  have hperm : (s.completed_processes ++ [pid]).Perm (s.processes.map Process.id) := by
    rw [List.perm_ext_iff_of_nodup (kill_completedNodup h hnotin) h.idsNodup]
    intro i
    constructor
    · intro hi
      rcases List.mem_append.mp hi with h1 | h2
      · obtain ⟨q, hq, _⟩ := (h.completedIff i).mp h1
        rw [← getP_id hq]
        exact List.mem_map_of_mem Process.id (getP_mem_store hq)
      · rw [show i = pid from by simpa using h2, ← getP_id hg0]
        exact List.mem_map_of_mem Process.id (getP_mem_store hg0)
    · intro hi
      rcases List.mem_map.mp hi with ⟨q, hqmem, hqid⟩
      by_cases hqp : q.id = pid
      · rw [← hqid, hqp]
        exact List.mem_append_right _ (by simp)
      · have hqf := hall q hqmem hqp
        refine List.mem_append_left _ ((h.completedIff i).mpr ⟨q, ?_, hqf⟩)
        rw [← hqid]
        exact getP_of_mem h.idsNodup hqmem
  rw [hperm.length_eq, List.length_map, updateP_length]

theorem applyKill_spec {s : SimState} (h : Inv s) {pid : Nat} {p : Process}
    (hg0 : getP s.processes pid = some p) (hfin : p.state ≠ PState.Finished) :
    getP (applyKill s pid).processes pid = some (killP s.sim_time p) ∧
    pid ∉ (applyKill s pid).ready_queue ∧
    pid ∉ (applyKill s pid).un_arrived_processes ∧
    pid ∈ (applyKill s pid).completed_processes ∧
    (s.current_process_id = some pid →
      ∃ t0, s.gantt_raw_log.getLast? = some (p.name, t0, s.sim_time) ∧
        (applyKill s pid).gantt_raw_log =
          s.gantt_raw_log.dropLast ++ [(p.name, t0, s.sim_time)]) ∧
    ((∀ q ∈ s.processes, q.id ≠ pid → q.state = PState.Finished) →
      (applyKill s pid).running = false) := by
  have hnotin : pid ∉ s.completed_processes := by
    intro hmem
    obtain ⟨q, hq, hqf⟩ := (h.completedIff pid).mp hmem
    rw [hg0] at hq
    injection hq with hq2
    rw [← hq2] at hqf
    exact hfin hqf
  unfold applyKill
  rw [hg0]
  dsimp only
  rw [if_pos hfin]
  rw [if_neg hnotin]
  by_cases hcur : s.current_process_id = some pid
  · obtain ⟨_, _, q, hq, hqrun, hqrem, hqarr, hqstart, hqlast, t0, hglast⟩ :=
      h.currentSpec pid hcur
    rw [hg0] at hq
    injection hq with hq2
    subst hq2
    have hcond : s.current_process_id = some pid ∧ p.start_execution_time ≠ none ∧
        p.last_run_time ≠ none := ⟨hcur, hqstart, hqlast⟩
    rw [if_pos hcond]
    rw [hglast]
    dsimp only
    rw [if_pos (show p.name = p.name from rfl)]
    rw [if_pos hcur]
    refine ⟨?_, ?_, ?_, ?_, ?_, ?_⟩
    · split
      all_goals
        show getP (updateP s.processes pid (killP s.sim_time)) pid =
          some (killP s.sim_time p)
        rw [@getP_updateP_self s.processes pid (killP s.sim_time) (fun x => rfl), hg0]
        rfl
    · split
      all_goals
        show pid ∉ s.ready_queue.filter (fun q2 => q2 ≠ pid)
        intro hmem
        exact (kill_readyFacts hmem).2 rfl
    · split
      all_goals
        show pid ∉ s.un_arrived_processes.filter (fun q2 => q2 ≠ pid)
        intro hmem
        exact (kill_readyFacts hmem).2 rfl
    · split
      all_goals
        show pid ∈ s.completed_processes ++ [pid]
        exact List.mem_append_right _ (by simp)
    · intro _
      refine ⟨t0, rfl, ?_⟩
      split
      all_goals rfl
    · intro hall
      exact stop_running (kill_lastDone h hg0 hnotin hall)
  · rw [if_neg (show ¬(s.current_process_id = some pid ∧
        p.start_execution_time ≠ none ∧ p.last_run_time ≠ none) from
        fun hand => hcur hand.1)]
    rw [if_neg hcur]
    refine ⟨?_, ?_, ?_, ?_, fun hc => absurd hc hcur, ?_⟩
    · split
      all_goals
        show getP (updateP s.processes pid (killP s.sim_time)) pid =
          some (killP s.sim_time p)
        rw [@getP_updateP_self s.processes pid (killP s.sim_time) (fun x => rfl), hg0]
        rfl
    · split
      all_goals
        show pid ∉ s.ready_queue.filter (fun q2 => q2 ≠ pid)
        intro hmem
        exact (kill_readyFacts hmem).2 rfl
    · split
      all_goals
        show pid ∉ s.un_arrived_processes.filter (fun q2 => q2 ≠ pid)
        intro hmem
        exact (kill_readyFacts hmem).2 rfl
    · split
      all_goals
        show pid ∈ s.completed_processes ++ [pid]
        exact List.mem_append_right _ (by simp)
    · intro hall
      exact stop_running (kill_lastDone h hg0 hnotin hall)

theorem selectNext_sjf_min {s : SimState} (halg : s.algorithm = Algorithm.SJF)
    {nid : Nat} (hsel : (selectNext s none).2 = some nid) :
    ∃ np, np ∈ (s.ready_queue.filterMap (getP s.processes)).filter
        (fun p => p.state = PState.Waiting) ∧ np.id = nid ∧
      ∀ q ∈ (s.ready_queue.filterMap (getP s.processes)).filter
          (fun p => p.state = PState.Waiting),
        lex3 (keySJF q) (keySJF np) = false := by
  unfold selectNext at hsel
  rw [halg] at hsel
  dsimp only at hsel
  cases hh : (sortB (fun a b => lex3 (keySJF a) (keySJF b))
      ((s.ready_queue.filterMap (getP s.processes)).filter
        (fun p => p.state = PState.Waiting))).head? with
  | none =>
    rw [hh] at hsel
    exact Option.noConfusion hsel
  | some np =>
    rw [hh] at hsel
    injection hsel with h2
    refine ⟨np, ?_, h2, ?_⟩
    · exact mem_sortB.mp (List.mem_of_mem_head? (Option.mem_def.mpr hh))
    · intro q hq
      exact @sortB_head_min Process (fun a b => lex3 (keySJF a) (keySJF b))
        (fun a b hab => lex3_asymm hab) (fun a b c h1 h2 => lex3_negtrans h1 h2)
        _ np hh q hq


theorem stop_gantt {w : SimState} {c : Prop} [inst : Decidable c] :
    (if c then { w with running := false } else w).gantt_raw_log =
      w.gantt_raw_log := by
  by_cases hc : c
  · rw [if_pos hc]
  · rw [if_neg hc]

/-! ### Concrete runs used by the claim theorems -/

def A52 : Process := mkProcess 1 "A" 5 2 0 0

def A52r : Process := resetP A52

def startA52 : SimState := startRun (mkState [A52]) Algorithm.FCFS 2

def runA2 : SimState :=
  drive (drive (startRun (mkState [mkProcess 1 "A" 0 2 0 0]) Algorithm.FCFS 2))

def pA2 : Process :=
  { id := 1
    name := "A"
    arrival_time := 0
    burst_time := 2
    priority := 0
    addition_order := 0
    remaining_time := 0
    state := PState.Finished
    start_execution_time := some 0
    last_run_time := some 1
    completion_time := some 2 }

def runA5 : SimState :=
  drive (drive (drive (startRun (mkState [mkProcess 1 "A" 0 5 0 0]) Algorithm.FCFS 2)))

def pA5 : Process :=
  { id := 1
    name := "A"
    arrival_time := 0
    burst_time := 5
    priority := 0
    addition_order := 0
    remaining_time := 2
    state := PState.Running
    start_execution_time := some 0
    last_run_time := some 2
    completion_time := none }

def rrStart : SimState :=
  startRun (mkState [mkProcess 1 "A" 0 4 0 0, mkProcess 2 "B" 0 4 0 1])
    Algorithm.RoundRobin 2

def rrRun : SimState :=
  drive (drive (drive (drive (drive (drive (drive (drive rrStart)))))))

def rrL1 : SimState :=
  { processes := [{ id := 1
                    name := "A"
                    arrival_time := 0
                    burst_time := 4
                    priority := 0
                    addition_order := 0
                    remaining_time := 3
                    state := PState.Running
                    start_execution_time := some 0
                    last_run_time := some 0
                    completion_time := none },
                  { id := 2
                    name := "B"
                    arrival_time := 0
                    burst_time := 4
                    priority := 0
                    addition_order := 1
                    remaining_time := 4
                    state := PState.Waiting
                    start_execution_time := none
                    last_run_time := none
                    completion_time := none }]
    running := true
    current_process_id := some 1
    algorithm := Algorithm.RoundRobin
    time_quantum := 2
    rr_quantum_counter := 1
    gantt_raw_log := [("A", 0, 1)]
    sim_time := 1
    cpu_active_time := 1
    ready_queue := [2]
    un_arrived_processes := []
    completed_processes := []
    prev_executed_pid := some 1 }

def rrL2 : SimState :=
  { processes := [{ id := 1
                    name := "A"
                    arrival_time := 0
                    burst_time := 4
                    priority := 0
                    addition_order := 0
                    remaining_time := 2
                    state := PState.Waiting
                    start_execution_time := some 0
                    last_run_time := some 1
                    completion_time := none },
                  { id := 2
                    name := "B"
                    arrival_time := 0
                    burst_time := 4
                    priority := 0
                    addition_order := 1
                    remaining_time := 4
                    state := PState.Waiting
                    start_execution_time := none
                    last_run_time := none
                    completion_time := none }]
    running := true
    current_process_id := none
    algorithm := Algorithm.RoundRobin
    time_quantum := 2
    rr_quantum_counter := 0
    gantt_raw_log := [("A", 0, 2)]
    sim_time := 2
    cpu_active_time := 2
    ready_queue := [2, 1]
    un_arrived_processes := []
    completed_processes := []
    prev_executed_pid := none }

def rrL3 : SimState :=
  { processes := [{ id := 1
                    name := "A"
                    arrival_time := 0
                    burst_time := 4
                    priority := 0
                    addition_order := 0
                    remaining_time := 2
                    state := PState.Waiting
                    start_execution_time := some 0
                    last_run_time := some 1
                    completion_time := none },
                  { id := 2
                    name := "B"
                    arrival_time := 0
                    burst_time := 4
                    priority := 0
                    addition_order := 1
                    remaining_time := 3
                    state := PState.Running
                    start_execution_time := some 2
                    last_run_time := some 2
                    completion_time := none }]
    running := true
    current_process_id := some 2
    algorithm := Algorithm.RoundRobin
    time_quantum := 2
    rr_quantum_counter := 1
    gantt_raw_log := [("A", 0, 2), ("B", 2, 3)]
    sim_time := 3
    cpu_active_time := 3
    ready_queue := [1]
    un_arrived_processes := []
    completed_processes := []
    prev_executed_pid := some 2 }

def rrL4 : SimState :=
  { processes := [{ id := 1
                    name := "A"
                    arrival_time := 0
                    burst_time := 4
                    priority := 0
                    addition_order := 0
                    remaining_time := 2
                    state := PState.Waiting
                    start_execution_time := some 0
                    last_run_time := some 1
                    completion_time := none },
                  { id := 2
                    name := "B"
                    arrival_time := 0
                    burst_time := 4
                    priority := 0
                    addition_order := 1
                    remaining_time := 2
                    state := PState.Waiting
                    start_execution_time := some 2
                    last_run_time := some 3
                    completion_time := none }]
    running := true
    current_process_id := none
    algorithm := Algorithm.RoundRobin
    time_quantum := 2
    rr_quantum_counter := 0
    gantt_raw_log := [("A", 0, 2), ("B", 2, 4)]
    sim_time := 4
    cpu_active_time := 4
    ready_queue := [1, 2]
    un_arrived_processes := []
    completed_processes := []
    prev_executed_pid := none }

def rrL5 : SimState :=
  { processes := [{ id := 1
                    name := "A"
                    arrival_time := 0
                    burst_time := 4
                    priority := 0
                    addition_order := 0
                    remaining_time := 1
                    state := PState.Running
                    start_execution_time := some 0
                    last_run_time := some 4
                    completion_time := none },
                  { id := 2
                    name := "B"
                    arrival_time := 0
                    burst_time := 4
                    priority := 0
                    addition_order := 1
                    remaining_time := 2
                    state := PState.Waiting
                    start_execution_time := some 2
                    last_run_time := some 3
                    completion_time := none }]
    running := true
    current_process_id := some 1
    algorithm := Algorithm.RoundRobin
    time_quantum := 2
    rr_quantum_counter := 1
    gantt_raw_log := [("A", 0, 2), ("B", 2, 4), ("A", 4, 5)]
    sim_time := 5
    cpu_active_time := 5
    ready_queue := [2]
    un_arrived_processes := []
    completed_processes := []
    prev_executed_pid := some 1 }

def rrL6 : SimState :=
  { processes := [{ id := 1
                    name := "A"
                    arrival_time := 0
                    burst_time := 4
                    priority := 0
                    addition_order := 0
                    remaining_time := 0
                    state := PState.Finished
                    start_execution_time := some 0
                    last_run_time := some 5
                    completion_time := some 6 },
                  { id := 2
                    name := "B"
                    arrival_time := 0
                    burst_time := 4
                    priority := 0
                    addition_order := 1
                    remaining_time := 2
                    state := PState.Waiting
                    start_execution_time := some 2
                    last_run_time := some 3
                    completion_time := none }]
    running := true
    current_process_id := none
    algorithm := Algorithm.RoundRobin
    time_quantum := 2
    rr_quantum_counter := 1
    gantt_raw_log := [("A", 0, 2), ("B", 2, 4), ("A", 4, 6)]
    sim_time := 6
    cpu_active_time := 6
    ready_queue := [2]
    un_arrived_processes := []
    completed_processes := [1]
    prev_executed_pid := none }

def rrL7 : SimState :=
  { processes := [{ id := 1
                    name := "A"
                    arrival_time := 0
                    burst_time := 4
                    priority := 0
                    addition_order := 0
                    remaining_time := 0
                    state := PState.Finished
                    start_execution_time := some 0
                    last_run_time := some 5
                    completion_time := some 6 },
                  { id := 2
                    name := "B"
                    arrival_time := 0
                    burst_time := 4
                    priority := 0
                    addition_order := 1
                    remaining_time := 1
                    state := PState.Running
                    start_execution_time := some 2
                    last_run_time := some 6
                    completion_time := none }]
    running := true
    current_process_id := some 2
    algorithm := Algorithm.RoundRobin
    time_quantum := 2
    rr_quantum_counter := 1
    gantt_raw_log := [("A", 0, 2), ("B", 2, 4), ("A", 4, 6), ("B", 6, 7)]
    sim_time := 7
    cpu_active_time := 7
    ready_queue := []
    un_arrived_processes := []
    completed_processes := [1]
    prev_executed_pid := some 2 }

def rrL8 : SimState :=
  { processes := [{ id := 1
                    name := "A"
                    arrival_time := 0
                    burst_time := 4
                    priority := 0
                    addition_order := 0
                    remaining_time := 0
                    state := PState.Finished
                    start_execution_time := some 0
                    last_run_time := some 5
                    completion_time := some 6 },
                  { id := 2
                    name := "B"
                    arrival_time := 0
                    burst_time := 4
                    priority := 0
                    addition_order := 1
                    remaining_time := 0
                    state := PState.Finished
                    start_execution_time := some 2
                    last_run_time := some 7
                    completion_time := some 8 }]
    running := true
    current_process_id := none
    algorithm := Algorithm.RoundRobin
    time_quantum := 2
    rr_quantum_counter := 1
    gantt_raw_log := [("A", 0, 2), ("B", 2, 4), ("A", 4, 6), ("B", 6, 8)]
    sim_time := 8
    cpu_active_time := 8
    ready_queue := []
    un_arrived_processes := []
    completed_processes := [1, 2]
    prev_executed_pid := none }

theorem rr_eval1 : drive rrStart = rrL1 := by decide

theorem rr_eval2 : drive rrL1 = rrL2 := by decide

theorem rr_eval3 : drive rrL2 = rrL3 := by decide

theorem rr_eval4 : drive rrL3 = rrL4 := by decide

theorem rr_eval5 : drive rrL4 = rrL5 := by decide

theorem rr_eval6 : drive rrL5 = rrL6 := by decide

theorem rr_eval7 : drive rrL6 = rrL7 := by decide

theorem rr_eval8 : drive rrL7 = rrL8 := by decide

theorem rrRun_eval : rrRun = rrL8 := by
  unfold rrRun
  rw [rr_eval1, rr_eval2, rr_eval3, rr_eval4, rr_eval5, rr_eval6, rr_eval7, rr_eval8]

theorem rr2_eval : drive (drive rrStart) = rrL2 := by
  rw [rr_eval1, rr_eval2]

def sjfStart : SimState :=
  startRun (mkState [mkProcess 1 "A" 0 5 0 0, mkProcess 2 "B" 2 1 0 1]) Algorithm.SJF 2

def sjfRun : SimState := drive (drive (drive (drive (drive (drive sjfStart)))))

def sjf3 : SimState := drive (drive (drive sjfStart))

def addRun : SimState :=
  drive (drive (drive (drive (drive (applyAdd
    (drive (startRun (mkState [mkProcess 1 "A" 0 10 0 0]) Algorithm.FCFS 2))
    2 "B" 2 1 0)))))

/-! ### The claims -/

/-- Claim C1, counterexample: in the run with the single process A
(arrival 5, burst 2), the idle fast-forward of the very first tick changes
`cpu_active_time` from 0 to 4 although the Timeline Log stays empty, so the
jump does not leave `cpu_active_time` unchanged and the boundary before
execution starts does not have `cpu_active_time = 0`. -/
theorem C1_cex :
    startA52.cpu_active_time = 0 ∧ (drive startA52).cpu_active_time = 4 ∧
    (drive startA52).sim_time = 5 ∧ (drive startA52).gantt_raw_log = [] := by
  decide

/-- Claim C1 (amended): when a tick finds nothing selectable (the ready
queue is empty after the admission loop, no process holds the CPU) while
unfinished processes remain and the arrival feed is nonempty, the engine
fast-forwards `sim_time` to the next arrival's tick minus 1 — but it also
overwrites `cpu_active_time` with that same value (line 857 of
`src/app.py`); only the Timeline Log is unchanged by the jump. -/
theorem C1_idle_jump (s : SimState) (fid : Nat) (rest : List Nat) (fp : Process)
    (hadm : releaseArrivals s.processes s.sim_time s.ready_queue
      s.un_arrived_processes = ([], fid :: rest))
    (hcur : s.current_process_id = none)
    (hfp : getP s.processes fid = some fp)
    (hun : (s.processes.filter (fun p => p.state ≠ PState.Finished)).isEmpty = false) :
    (tickAux s).2 = true ∧
    (tickAux s).1.sim_time = fp.arrival_time - 1 ∧
    (tickAux s).1.cpu_active_time = fp.arrival_time - 1 ∧
    (tickAux s).1.gantt_raw_log = s.gantt_raw_log := by
  have hun2 : ¬((s.processes.filter
      (fun p => p.state ≠ PState.Finished)).isEmpty = true) := by
    intro hx
    rw [hx] at hun
    exact Bool.noConfusion hun
  unfold tickAux
  rw [hadm]
  dsimp only
  rw [show s.current_process_id.bind (getP s.processes) = (none : Option Process) from
    by rw [hcur]; rfl]
  rw [selectNext_ready_nil (s := { s with
    ready_queue := ([] : List Nat)
    un_arrived_processes := fid :: rest }) rfl]
  dsimp only
  unfold tickIdle
  dsimp only
  rw [if_neg hun2]
  rw [if_pos (show (([] : List Nat).isEmpty) = true from rfl)]
  rw [hfp]
  exact ⟨rfl, rfl, rfl, rfl⟩

/-- Claim C1, witness: the amended fast-forward behaviour on the concrete
single-process run A(arrival 5, burst 2). -/
theorem C1_wit :
    (tickAux startA52).2 = true ∧
    (tickAux startA52).1.sim_time = A52r.arrival_time - 1 ∧
    (tickAux startA52).1.cpu_active_time = A52r.arrival_time - 1 ∧
    (tickAux startA52).1.gantt_raw_log = startA52.gantt_raw_log :=
  C1_idle_jump startA52 1 [] A52r rfl rfl rfl rfl

/-- Claim C2 (code bug): process 2 is added mid-run (arrival 2, burst 1)
while process 1 is still executing, but five ticks later — `sim_time = 6`,
well past the arrival — it is still Waiting with its full burst left, is in
neither the Ready Queue nor the Arrival Feed, and is not the dispatched
process: the Add Task handler never inserts the new id into
`un_arrived_processes`, so the admission loop can never release it. -/
theorem C2_starved_add :
    addRun.sim_time = 6 ∧ addRun.running = true ∧
    (getP addRun.processes 2).map Process.state = some PState.Waiting ∧
    (getP addRun.processes 2).map Process.arrival_time = some 2 ∧
    (getP addRun.processes 2).map Process.remaining_time = some 1 ∧
    2 ∉ addRun.ready_queue ∧ 2 ∉ addRun.un_arrived_processes ∧
    addRun.current_process_id ≠ some 2 := by
  decide

/-- Claim C3, counterexample: killing the not-yet-arrived process A
(arrival 5, burst 2) at tick 0 makes it Finished with
`turnaround_time = -5` and `waiting_time = -7`, so the claimed
non-negativity fails for killed processes. -/
theorem C3_cex :
    (getP (applyKill startA52 1).processes 1).map Process.metricsTurnaround =
      some (some (-5)) ∧
    (getP (applyKill startA52 1).processes 1).map Process.metricsWaiting =
      some (some (-7)) ∧
    (getP (applyKill startA52 1).processes 1).map Process.state =
      some PState.Finished := by
  decide

/-- Claim C3 (amended): in any run without Kill clicks, every Finished
process satisfies the metric identities
`turnaround = completion - arrival`, `waiting = turnaround - burst`,
`response = start - arrival`, `turnaround = waiting + burst`, and all three
metrics are non-negative.  (A kill can produce negative metrics, see the
counterexample.) -/
theorem C3_metrics {j : Bool} {s : SimState} (hr : Reach false j s) {p : Process}
    (hp : p ∈ s.processes) (hf : p.state = PState.Finished) :
    ∃ c t0, p.completion_time = some c ∧ p.start_execution_time = some t0 ∧
      p.metricsTurnaround = some (c - p.arrival_time) ∧
      p.metricsWaiting = some (c - p.arrival_time - p.burst_time) ∧
      p.metricsResponse = some (t0 - p.arrival_time) ∧
      c - p.arrival_time = (c - p.arrival_time - p.burst_time) + p.burst_time ∧
      0 ≤ c - p.arrival_time ∧ 0 ≤ c - p.arrival_time - p.burst_time ∧
      0 ≤ t0 - p.arrival_time := by
  have hm := reach_invM hr
  obtain ⟨c, t0, hc, ht0, ha, hab⟩ := hm.finSpec p hp hf
  have hb := (reach_inv hr).bounds p hp
  refine ⟨c, t0, hc, ht0, ?_, ?_, ?_, by omega, by omega, by omega, by omega⟩
  · unfold Process.metricsTurnaround
    rw [if_pos hf, hc]
    rfl
  · unfold Process.metricsWaiting Process.metricsTurnaround
    rw [if_pos hf, hc]
    rfl
  · unfold Process.metricsResponse
    rw [if_pos hf, ht0]
    rfl

/-- Claim C3, witness: the metric identities for the process of the
kill-free two-tick FCFS run A(arrival 0, burst 2), Finished at tick 2. -/
theorem C3_wit :
    ∃ c t0, pA2.completion_time = some c ∧ pA2.start_execution_time = some t0 ∧
      pA2.metricsTurnaround = some (c - pA2.arrival_time) ∧
      pA2.metricsWaiting = some (c - pA2.arrival_time - pA2.burst_time) ∧
      pA2.metricsResponse = some (t0 - pA2.arrival_time) ∧
      c - pA2.arrival_time = (c - pA2.arrival_time - pA2.burst_time) + pA2.burst_time ∧
      0 ≤ c - pA2.arrival_time ∧ 0 ≤ c - pA2.arrival_time - pA2.burst_time ∧
      0 ≤ t0 - pA2.arrival_time :=
  C3_metrics (j := true)
    (Reach.tick (Reach.tick (Reach.start [mkProcess 1 "A" 0 2 0 0] Algorithm.FCFS 2
      (by decide) (by decide) (by decide)) (Or.inl rfl)) (Or.inl rfl))
    (by decide) rfl

/-- Claim C4, counterexample: after the idle fast-forward of the run with
the single process A(arrival 5, burst 2), the Timeline Log is empty (total
duration 0) while `cpu_active_time = 4`. -/
theorem C4_cex :
    ganttSum (drive startA52).gantt_raw_log = 0 ∧
    (drive startA52).cpu_active_time = 4 := by
  decide

/-- Claim C4 (amended): at every tick boundary of every run in which the
idle fast-forward never fired, the sum of the Timeline Log segment
durations equals `cpu_active_time`; the fast-forward overwrites
`cpu_active_time` and breaks the equality (see the counterexample). -/
theorem C4_gantt_sum {k : Bool} {s : SimState} (hr : Reach k false s) :
    ganttSum s.gantt_raw_log = s.cpu_active_time :=
  reach_invG hr

/-- Claim C4, witness: the Timeline Log / CPU-time equality at the end of
the jump-free FCFS run A(arrival 0, burst 2). -/
theorem C4_wit : ganttSum runA2.gantt_raw_log = runA2.cpu_active_time :=
  C4_gantt_sum (k := true)
    (Reach.tick (Reach.tick (Reach.start [mkProcess 1 "A" 0 2 0 0] Algorithm.FCFS 2
      (by decide) (by decide) (by decide)) (Or.inr (by decide))) (Or.inr (by decide)))

/-- Claim C5: killing a Waiting or Running process at tick t makes it
Finished with `completion_time = t`; it is purged from the Ready Queue and
the Arrival Feed; if it was the dispatched process, the open Timeline Log
segment is truncated to end at t; it is never scheduled in any later state;
and if every other process was already Finished the run halts. -/
theorem C5_kill (k j : Bool) {s : SimState} (hr : Reach k j s) (pid : Nat) (p : Process)
    (hg0 : getP s.processes pid = some p)
    (hws : p.state = PState.Waiting ∨ p.state = PState.Running) :
    (∃ q, getP (applyKill s pid).processes pid = some q ∧
      q.state = PState.Finished ∧ q.completion_time = some s.sim_time) ∧
    pid ∉ (applyKill s pid).ready_queue ∧
    pid ∉ (applyKill s pid).un_arrived_processes ∧
    (s.current_process_id = some pid →
      ∃ t0, s.gantt_raw_log.getLast? = some (p.name, t0, s.sim_time) ∧
        (applyKill s pid).gantt_raw_log =
          s.gantt_raw_log.dropLast ++ [(p.name, t0, s.sim_time)]) ∧
    (∀ t, Steps (applyKill s pid) t → t.current_process_id ≠ some pid ∧
      pid ∉ t.ready_queue ∧ pid ∉ t.un_arrived_processes) ∧
    ((∀ q ∈ s.processes, q.id ≠ pid → q.state = PState.Finished) →
      (applyKill s pid).running = false) := by
  have hI := reach_inv hr
  have hfin : p.state ≠ PState.Finished := by
    rcases hws with hw | hw
    · rw [hw]
      exact fun hc => PState.noConfusion hc
    · rw [hw]
      exact fun hc => PState.noConfusion hc
  obtain ⟨k1, k2, k3, k4, k5, k6⟩ := applyKill_spec hI hg0 hfin
  refine ⟨⟨killP s.sim_time p, k1, rfl, rfl⟩, k2, k3, k5, ?_, k6⟩
  intro t hst
  have hfs := finished_stays hst (kill_pres hI pid).1 k4
  exact ⟨hfs.2.1, hfs.2.2.1, hfs.2.2.2⟩

/-- Claim C5, witness: killing the Running process A of the FCFS run
A(arrival 0, burst 5) at tick 3. -/
theorem C5_kill_wit :
    (∃ q, getP (applyKill runA5 1).processes 1 = some q ∧
      q.state = PState.Finished ∧ q.completion_time = some runA5.sim_time) ∧
    1 ∉ (applyKill runA5 1).ready_queue ∧
    1 ∉ (applyKill runA5 1).un_arrived_processes ∧
    (runA5.current_process_id = some 1 →
      ∃ t0, runA5.gantt_raw_log.getLast? = some (pA5.name, t0, runA5.sim_time) ∧
        (applyKill runA5 1).gantt_raw_log =
          runA5.gantt_raw_log.dropLast ++ [(pA5.name, t0, runA5.sim_time)]) ∧
    (∀ t, Steps (applyKill runA5 1) t → t.current_process_id ≠ some 1 ∧
      1 ∉ t.ready_queue ∧ 1 ∉ t.un_arrived_processes) ∧
    ((∀ q ∈ runA5.processes, q.id ≠ 1 → q.state = PState.Finished) →
      (applyKill runA5 1).running = false) :=
  C5_kill true true
    (Reach.tick (Reach.tick (Reach.tick (Reach.start [mkProcess 1 "A" 0 5 0 0]
      Algorithm.FCFS 2 (by decide) (by decide) (by decide)) (Or.inl rfl))
      (Or.inl rfl)) (Or.inl rfl))
    1 pA5 (by decide) (Or.inr rfl)

/-- Claim C6, counterexample: in the Round-Robin run A, B (both arrival 0,
burst 4, quantum 2), process A is Finished with `completion_time = 6`, not
8: both processes do not finish at tick 8. -/
theorem C6_cex :
    (getP rrRun.processes 1).map Process.state = some PState.Finished ∧
    (getP rrRun.processes 1).map Process.completion_time ≠ some (some 8) := by
  rw [rrRun_eval]
  decide

/-- Claim C6 (amended): in the Round-Robin run A, B (both arrival 0,
burst 4, quantum 2, added A then B), the process whose quantum expires is
re-queued at the tail (at boundary 2 the Ready Queue is [B, A] with A at
the tail and the CPU vacated), the Timeline Log is exactly
A[0,2) B[2,4) A[4,6) B[6,8), and B finishes at tick 8 — but A finishes at
tick 6. -/
theorem C6_rr_timeline :
    (drive (drive rrStart)).ready_queue = [2, 1] ∧
    (drive (drive rrStart)).current_process_id = none ∧
    rrRun.gantt_raw_log = [("A", 0, 2), ("B", 2, 4), ("A", 4, 6), ("B", 6, 8)] ∧
    (getP rrRun.processes 2).map Process.completion_time = some (some 8) ∧
    (getP rrRun.processes 1).map Process.completion_time = some (some 6) := by
  rw [rrRun_eval, rr2_eval]
  decide

/-- Claim C7: under SJF a Running process with remaining time always
continues (non-preemption); when nothing is running, the dispatched id
minimises the strict lexicographic key `keySJF = (burst_time, arrival_time,
addition_order)` — the original burst, never `remaining_time` — over the
arrived Waiting candidates; and the concrete run A(arrival 0, burst 5),
B(arrival 2, burst 1) executes A over ticks 0–5 and B over 5–6. -/
theorem C7_sjf :
    (∀ (s : SimState) (c : Process), c.state = PState.Running →
      0 < c.remaining_time → (selectNext s (some c)).2 = some c.id) ∧
    (∀ (s : SimState), s.algorithm = Algorithm.SJF → ∀ nid,
      (selectNext s none).2 = some nid →
      ∃ np, np ∈ (s.ready_queue.filterMap (getP s.processes)).filter
          (fun p => p.state = PState.Waiting) ∧ np.id = nid ∧
        ∀ q ∈ (s.ready_queue.filterMap (getP s.processes)).filter
            (fun p => p.state = PState.Waiting),
          lex3 (keySJF q) (keySJF np) = false) ∧
    (∀ p : Process, keySJF p = (p.burst_time, p.arrival_time, p.addition_order)) ∧
    sjfRun.gantt_raw_log = [("A", 0, 5), ("B", 5, 6)] ∧
    (getP sjfRun.processes 1).map Process.completion_time = some (some 5) ∧
    (getP sjfRun.processes 2).map Process.completion_time = some (some 6) := by
  refine ⟨fun s c h1 h2 => (selectNext_continue s h1 h2).1,
    fun s halg nid hsel => selectNext_sjf_min halg hsel,
    fun p => rfl, by decide, by decide, by decide⟩

/-- Claim C8, counterexample: pressing Start on an empty process set is a
silent no-op — the session state is returned unchanged and the run is not
started; no typed NoProcesses failure exists anywhere in the handler. -/
theorem C8_cex :
    startRun (mkState []) Algorithm.FCFS 2 = mkState [] ∧
    (startRun (mkState []) Algorithm.FCFS 2).running = false := by
  decide

/-- Claim C8 (amended): starting a run on a nonempty process set resets all
dynamic process state (remaining time back to the burst, state to Waiting,
start/last-run/completion times to none), clears the queues and the
Timeline Log and rebuilds the arrival feed sorted by (arrival_time,
addition_order); on an empty process set the handler silently returns the
state unchanged instead of failing with a typed error. -/
theorem C8_start_reset :
    (∀ (s : SimState) (alg : Algorithm) (q : Int), s.processes = [] →
      startRun s alg q = s) ∧
    (∀ (s : SimState) (alg : Algorithm) (q : Int), s.processes ≠ [] →
      (startRun s alg q).processes = s.processes.map resetP ∧
      (startRun s alg q).running = true ∧
      (startRun s alg q).sim_time = 0 ∧
      (startRun s alg q).cpu_active_time = 0 ∧
      (startRun s alg q).current_process_id = none ∧
      (startRun s alg q).gantt_raw_log = [] ∧
      (startRun s alg q).ready_queue = [] ∧
      (startRun s alg q).completed_processes = [] ∧
      (startRun s alg q).un_arrived_processes =
        (sortB (fun a b => lex2 (keyArrival a) (keyArrival b))
          (s.processes.map resetP)).map Process.id) ∧
    (∀ x : Process, (resetP x).remaining_time = x.burst_time ∧
      (resetP x).state = PState.Waiting ∧
      (resetP x).start_execution_time = none ∧ (resetP x).last_run_time = none ∧
      (resetP x).completion_time = none) := by
  refine ⟨?_, ?_, fun x => ⟨rfl, rfl, rfl, rfl, rfl⟩⟩
  · intro s alg q hs
    unfold startRun
    rw [if_pos (show s.processes.isEmpty = true from by rw [hs]; rfl)]
  · intro s alg q hs
    unfold startRun
    rw [if_neg (show ¬s.processes.isEmpty = true from
      fun hx => hs (List.isEmpty_iff.mp hx))]
    exact ⟨rfl, rfl, rfl, rfl, rfl, rfl, rfl, rfl, rfl⟩

/-- Claim C9: at every reachable tick boundary, the dispatched process is
not an element of the Ready Queue, and the Ready Queue holds no duplicate
ids. -/
theorem C9_ready_inv {k j : Bool} {s : SimState} (hr : Reach k j s) :
    (∀ cid, s.current_process_id = some cid → cid ∉ s.ready_queue) ∧
    s.ready_queue.Nodup :=
  ⟨fun cid hc => ((reach_inv hr).currentSpec cid hc).1, (reach_inv hr).readyNodup⟩

/-- Claim C9, witness: the Ready Queue facts one tick into the Round-Robin
run A, B (both arrival 0, burst 4, quantum 2). -/
theorem C9_wit :
    (∀ cid, (drive rrStart).current_process_id = some cid →
      cid ∉ (drive rrStart).ready_queue) ∧ (drive rrStart).ready_queue.Nodup :=
  C9_ready_inv (k := true) (j := true)
    (Reach.tick (Reach.start [mkProcess 1 "A" 0 4 0 0, mkProcess 2 "B" 0 4 0 1]
      Algorithm.RoundRobin 2 (by decide) (by decide) (by decide)) (Or.inl rfl))

/-- Claim C10: killing a process whose id is not `current_process_id`
leaves the Timeline Log unchanged. -/
theorem C10_gantt_frame {s : SimState} {pid : Nat}
    (hne : s.current_process_id ≠ some pid) :
    (applyKill s pid).gantt_raw_log = s.gantt_raw_log := by
  unfold applyKill
  cases hg : getP s.processes pid with
  | none => rfl
  | some p =>
    dsimp only
    by_cases hfin : p.state = PState.Finished
    · rw [if_neg (not_not_intro hfin)]
      rw [if_neg hne]
      exact stop_gantt
    · rw [if_pos hfin]
      rw [if_neg (show ¬(s.current_process_id = some pid ∧
          p.start_execution_time ≠ none ∧ p.last_run_time ≠ none) from
          fun hand => hne hand.1)]
      rw [if_neg hne]
      exact stop_gantt

/-- Claim C10, witness: killing the Waiting process B three ticks into the
SJF run (A is dispatched) leaves the Timeline Log unchanged. -/
theorem C10_wit : (applyKill sjf3 2).gantt_raw_log = sjf3.gantt_raw_log :=
  C10_gantt_frame (by decide)

end DAMPos
